import Mathlib

/-!
Verification of the KOS IPAM controller and subnet validator
(package ipam and package subnet of the kube-examples staging tree).

The Go source is shallowly embedded: every definition below mirrors a Go
function or type of the repository.  Strings that the Go code builds and
splits (IPLock object names) are modelled as lists of characters, which is
what a Go string is at the byte level for the ASCII data involved.
Machine integers (uint32, 21-bit VNIs) are modelled as Nat with explicit
bounds where they matter.  Fallible Go code returns Option.
-/

/- ---------------------------------------------------------------------
   Lock-name codec
   Go source: makeIPLockName2 and parseIPLockName (ipam controller).
   makeIPLockName2 renders with fmt.Sprintf using decimal verbs, modelled
   by natToDec; parseIPLockName splits on the dash and uses
   strconv.ParseUint with base 10 and an explicit bit size, modelled by
   goParseUint.
   --------------------------------------------------------------------- -/

/-- The decimal digit character for a value below ten. -/
def digitChar (n : Nat) : Char := Char.ofNat (48 + n)

/-- Accumulator form of decimal rendering, most significant digit first. -/
def natToDecAux : Nat → List Char → List Char
  | 0, acc => acc
  | n+1, acc => natToDecAux ((n+1) / 10) (digitChar ((n+1) % 10) :: acc)
decreasing_by exact Nat.div_lt_self (Nat.succ_pos n) (by decide)

/-- Decimal rendering of a natural number, as the %d verb of fmt.Sprintf
prints it: no sign, no leading zeros, and 0 prints as the single digit 0. -/
def natToDec (n : Nat) : List Char :=
  if n = 0 then ['0'] else natToDecAux n []

/-- The value of a decimal digit character, if it is one. -/
def decDigit? (c : Char) : Option Nat :=
  if '0' ≤ c ∧ c ≤ '9' then some (c.toNat - 48) else none

/-- Left fold of decimal digits into a value; fails on any non-digit. -/
def parseDecAux : List Char → Nat → Option Nat
  | [], acc => some acc
  | c :: cs, acc =>
    match decDigit? c with
    | some d => parseDecAux cs (acc * 10 + d)
    | none => none

/-- Model of strconv.ParseUint(s, 10, bits): rejects the empty string and
any non-digit, and rejects values that do not fit in the bit size. -/
def goParseUint (cs : List Char) (bits : Nat) : Option Nat :=
  if cs = [] then none
  else
    match parseDecAux cs 0 with
    | some v => if v < 2 ^ bits then some v else none
    | none => none

/-- An IPv4 address as its four octets, the view that the Go code takes
of a net.IP value after To4. -/
structure IPv4 where
  a : Nat
  b : Nat
  c : Nat
  d : Nat
deriving DecidableEq, Repr

/-- Go func IPv4ToUint32: big-endian packing of the four octets. -/
def IPv4ToUint32 (ip : IPv4) : Nat :=
  ((ip.a * 256 + ip.b) * 256 + ip.c) * 256 + ip.d

/-- Go func Uint32ToIPv4: unpack a uint32 into four octets. -/
def Uint32ToIPv4 (i : Nat) : IPv4 :=
  ⟨i / 2 ^ 24 % 256, i / 2 ^ 16 % 256, i / 2 ^ 8 % 256, i % 256⟩

/-- Go func makeIPLockName2: fmt.Sprintf with the v1 literal and five
decimal fields joined by dashes. -/
def makeIPLockName2 (vni : Nat) (ip : IPv4) : List Char :=
  ['v', '1'] ++ '-' :: (natToDec vni ++ '-' :: (natToDec ip.a ++ '-' ::
    (natToDec ip.b ++ '-' :: (natToDec ip.c ++ '-' :: natToDec ip.d))))

/-- Model of strings.Split(s, dash): split a character list at every dash. -/
def splitD : List Char → List (List Char)
  | [] => [[]]
  | c :: cs =>
    if c = '-' then [] :: splitD cs
    else
      match splitD cs with
      | [] => [[c]]
      | p :: ps => (c :: p) :: ps

/-- Go func parseIPLockName: six dash-separated parts, first part the v1
literal, then a 21-bit VNI and four 8-bit octets folded big-endian. -/
def parseIPLockName (lockName : List Char) : Option (Nat × Nat) :=
  match splitD lockName with
  | [p0, p1, p2, p3, p4, p5] =>
    if p0 = ['v', '1'] then
      match goParseUint p1 21 with
      | some vni =>
        match goParseUint p2 8, goParseUint p3 8, goParseUint p4 8, goParseUint p5 8 with
        | some b0, some b1, some b2, some b3 =>
            some (vni, ((b0 * 256 + b1) * 256 + b2) * 256 + b3)
        | _, _, _, _ => none
      | none => none
    else none
  | _ => none

theorem decDigit?_digitChar (d : Nat) (h : d < 10) :
    decDigit? (digitChar d) = some d := by
  interval_cases d <;> rfl

theorem digitChar_ne_dash (d : Nat) (h : d < 10) : digitChar d ≠ '-' := by
  interval_cases d <;> decide

theorem parseDecAux_cons_digit (c : Char) (cs : List Char) (a d : Nat)
    (h : decDigit? c = some d) :
    parseDecAux (c :: cs) a = parseDecAux cs (a * 10 + d) := by
  simp [parseDecAux, h]

theorem parse_natToDecAux (n : Nat) :
    ∀ (cs : List Char) (a : Nat),
      ∃ k, parseDecAux (natToDecAux n cs) a = parseDecAux cs (a * 10 ^ k + n) := by
  induction n using Nat.strong_induction_on with
  | _ n ih =>
    match n with
    | 0 =>
      intro cs a
      exact ⟨0, by simp [natToDecAux]⟩
    | Nat.succ m =>
      intro cs a
      have hq : (m + 1) / 10 < m + 1 := Nat.div_lt_self (Nat.succ_pos m) (by decide)
      obtain ⟨k, hk⟩ := ih ((m + 1) / 10) hq (digitChar ((m + 1) % 10) :: cs) a
      refine ⟨k + 1, ?_⟩
      have hstep : natToDecAux (m + 1) cs
          = natToDecAux ((m + 1) / 10) (digitChar ((m + 1) % 10) :: cs) := by
        rw [natToDecAux]
      rw [hstep, hk]
      have hr : (m + 1) % 10 < 10 := Nat.mod_lt _ (by decide)
      rw [parseDecAux_cons_digit _ _ _ _ (decDigit?_digitChar _ hr)]
      have h10 : 10 * ((m + 1) / 10) + (m + 1) % 10 = m + 1 := Nat.div_add_mod (m + 1) 10
      have harith : (a * 10 ^ k + (m + 1) / 10) * 10 + (m + 1) % 10
          = a * 10 ^ (k + 1) + (m + 1) := by
        calc (a * 10 ^ k + (m + 1) / 10) * 10 + (m + 1) % 10
            = a * (10 ^ k * 10) + (10 * ((m + 1) / 10) + (m + 1) % 10) := by ring
          _ = a * 10 ^ (k + 1) + (m + 1) := by rw [h10, pow_succ]
      rw [harith]

theorem parseDec_natToDec (n : Nat) : parseDecAux (natToDec n) 0 = some n := by
  by_cases h : n = 0
  · subst h; rfl
  · obtain ⟨k, hk⟩ := parse_natToDecAux n [] 0
    rw [natToDec, if_neg h, hk]
    simp [parseDecAux]

theorem natToDecAux_append (n : Nat) :
    ∀ cs : List Char, ∃ ds, natToDecAux n cs = ds ++ cs := by
  induction n using Nat.strong_induction_on with
  | _ n ih =>
    match n with
    | 0 => intro cs; exact ⟨[], by simp [natToDecAux]⟩
    | Nat.succ m =>
      intro cs
      have hq : (m + 1) / 10 < m + 1 := Nat.div_lt_self (Nat.succ_pos m) (by decide)
      obtain ⟨ds, hds⟩ := ih ((m + 1) / 10) hq (digitChar ((m + 1) % 10) :: cs)
      refine ⟨ds ++ [digitChar ((m + 1) % 10)], ?_⟩
      have hstep : natToDecAux (m + 1) cs
          = natToDecAux ((m + 1) / 10) (digitChar ((m + 1) % 10) :: cs) := by
        rw [natToDecAux]
      rw [hstep, hds]
      simp

theorem natToDec_ne_nil (n : Nat) : natToDec n ≠ [] := by
  by_cases h : n = 0
  · subst h; simp [natToDec]
  · rw [natToDec, if_neg h]
    match n, h with
    | Nat.succ m, _ =>
      have hstep : natToDecAux (m + 1) ([] : List Char)
          = natToDecAux ((m + 1) / 10) (digitChar ((m + 1) % 10) :: []) := by
        rw [natToDecAux]
      obtain ⟨ds, hds⟩ := natToDecAux_append ((m + 1) / 10) (digitChar ((m + 1) % 10) :: [])
      rw [hstep, hds]
      simp

theorem natToDecAux_all {P : Char → Prop} (hd : ∀ r, r < 10 → P (digitChar r)) :
    ∀ (n : Nat) (cs : List Char), (∀ c ∈ cs, P c) → ∀ c ∈ natToDecAux n cs, P c := by
  intro n
  induction n using Nat.strong_induction_on with
  | _ n ih =>
    match n with
    | 0 => intro cs hcs; simpa [natToDecAux] using hcs
    | Nat.succ m =>
      intro cs hcs
      have hq : (m + 1) / 10 < m + 1 := Nat.div_lt_self (Nat.succ_pos m) (by decide)
      have hstep : natToDecAux (m + 1) cs
          = natToDecAux ((m + 1) / 10) (digitChar ((m + 1) % 10) :: cs) := by
        rw [natToDecAux]
      rw [hstep]
      refine ih ((m + 1) / 10) hq _ ?_
      intro c hc
      rcases List.mem_cons.mp hc with rfl | hmem
      · exact hd _ (Nat.mod_lt _ (by decide))
      · exact hcs _ hmem

theorem natToDec_dashFree (n : Nat) : ∀ c ∈ natToDec n, c ≠ '-' := by
  by_cases h : n = 0
  · subst h
    intro c hc
    have hc0 : c = '0' := by simpa [natToDec] using hc
    subst hc0; decide
  · rw [natToDec, if_neg h]
    exact natToDecAux_all digitChar_ne_dash n [] (by intro c hc; cases hc)

theorem splitD_ne_nil (cs : List Char) : splitD cs ≠ [] := by
  induction cs with
  | nil => simp [splitD]
  | cons c cs ih =>
    by_cases h : c = '-'
    · simp [splitD, h]
    · rw [splitD, if_neg h]
      match hs : splitD cs with
      | [] => simp
      | p :: ps => simp

theorem splitD_append_dash (xs ys : List Char) (hxs : ∀ c ∈ xs, c ≠ '-') :
    splitD (xs ++ '-' :: ys) = xs :: splitD ys := by
  induction xs with
  | nil => simp [splitD]
  | cons c xs ih =>
    have hc : c ≠ '-' := hxs c (by simp)
    have ihh := ih (by intro x hx; exact hxs x (by simp [hx]))
    rw [List.cons_append, splitD, if_neg hc, ihh]

theorem splitD_dashFree (xs : List Char) (hxs : ∀ c ∈ xs, c ≠ '-') :
    splitD xs = [xs] := by
  induction xs with
  | nil => rfl
  | cons c xs ih =>
    have hc : c ≠ '-' := hxs c (by simp)
    have ihh := ih (by intro x hx; exact hxs x (by simp [hx]))
    rw [splitD, if_neg hc, ihh]

theorem splitD_makeIPLockName2 (v : Nat) (ip : IPv4) :
    splitD (makeIPLockName2 v ip)
      = [['v', '1'], natToDec v, natToDec ip.a, natToDec ip.b, natToDec ip.c,
         natToDec ip.d] := by
  rw [makeIPLockName2]
  rw [splitD_append_dash _ _ (by decide)]
  rw [splitD_append_dash _ _ (natToDec_dashFree v)]
  rw [splitD_append_dash _ _ (natToDec_dashFree ip.a)]
  rw [splitD_append_dash _ _ (natToDec_dashFree ip.b)]
  rw [splitD_append_dash _ _ (natToDec_dashFree ip.c)]
  rw [splitD_dashFree _ (natToDec_dashFree ip.d)]

theorem goParseUint_natToDec (n bits : Nat) (h : n < 2 ^ bits) :
    goParseUint (natToDec n) bits = some n := by
  rw [goParseUint, if_neg (natToDec_ne_nil n), parseDec_natToDec]
  simp [h]

theorem goParseUint_natToDec_big (n bits : Nat) (h : ¬ n < 2 ^ bits) :
    goParseUint (natToDec n) bits = none := by
  rw [goParseUint, if_neg (natToDec_ne_nil n), parseDec_natToDec]
  simp [h]

/-- C6: for every legal pair of a VNI of at most 2^21 - 1 and a four-octet
IPv4 address, parseIPLockName inverts makeIPLockName2, recovering the VNI
and the big-endian packing of the octets with no error; and for the VNI
2^21 the encoded name is rejected by parseIPLockName. -/
theorem C6_lock_name_roundtrip :
    (∀ (v : Nat) (ip : IPv4), v ≤ 2 ^ 21 - 1 → ip.a < 256 → ip.b < 256 →
        ip.c < 256 → ip.d < 256 →
        parseIPLockName (makeIPLockName2 v ip) = some (v, IPv4ToUint32 ip)) ∧
    (∀ ip : IPv4, parseIPLockName (makeIPLockName2 (2 ^ 21) ip) = none) := by
  constructor
  · intro v ip hv ha hb hc hd
    have hv21 : v < 2 ^ 21 := by omega
    rw [parseIPLockName, splitD_makeIPLockName2]
    simp only [goParseUint_natToDec v 21 hv21, goParseUint_natToDec ip.a 8 ha,
      goParseUint_natToDec ip.b 8 hb, goParseUint_natToDec ip.c 8 hc,
      goParseUint_natToDec ip.d 8 hd]
    simp [IPv4ToUint32]
  · intro ip
    rw [parseIPLockName, splitD_makeIPLockName2]
    simp only [goParseUint_natToDec_big (2 ^ 21) 21 (by omega)]
    simp

/-- Witness for C6 at the concrete pair VNI 5 and address 10.0.0.3, and at
the out-of-range VNI 2^21. -/
theorem C6_lock_name_roundtrip_witness :
    parseIPLockName (makeIPLockName2 5 ⟨10, 0, 0, 3⟩) = some (5, 167772163) ∧
    parseIPLockName (makeIPLockName2 (2 ^ 21) ⟨10, 0, 0, 3⟩) = none := by
  constructor
  · exact C6_lock_name_roundtrip.1 5 ⟨10, 0, 0, 3⟩ (by decide) (by decide)
      (by decide) (by decide) (by decide)
  · exact C6_lock_name_roundtrip.2 ⟨10, 0, 0, 3⟩

/- ---------------------------------------------------------------------
   IPLock objects and parsed locks
   Go source: type ParsedLock, NewParsedLock, Equal, IsBetterThan,
   ParsedLockList and its Best, Has, Append, AddFunc, AddListFunc,
   RemFunc; GetOwner and OwningAttachments.
   Go time.Time values are modelled as Int (comparison by Before and by
   equality is a linear order on the wall clock); UIDs are modelled as
   String, with the Go strings.Compare order being the character order.
   --------------------------------------------------------------------- -/

/-- One entry of ObjectMeta.OwnerReferences; Controller is a nullable
bool pointer in Go, hence Option Bool here. -/
structure OwnerRef where
  kind : String
  name : String
  uid : String
  controller : Option Bool
deriving DecidableEq

/-- An IPLock object as stored: namespace, object name (the encoded
lock name), UID, creation timestamp, owner references and spec. -/
structure IPLock where
  ns : String
  name : List Char
  uid : String
  creationTime : Int
  owners : List OwnerRef
  subnetName : String
deriving DecidableEq

/-- Go func GetOwner: scan the owner references; the last one of the
requested kind with Controller set and true wins; zero values if none. -/
def GetOwner (owners : List OwnerRef) (ownerKind : String) : String × String :=
  owners.foldl
    (fun acc oref =>
      if oref.kind = ownerKind ∧ oref.controller = some true
      then (oref.name, oref.uid) else acc)
    ("", "")

/-- Go func OwningAttachments: the names of all controller owner
references of kind NetworkAttachment, in order. -/
def OwningAttachments (owners : List OwnerRef) : List String :=
  (owners.filter
    (fun oref => decide (oref.kind = "NetworkAttachment" ∧ oref.controller = some true))).map
    OwnerRef.name

/-- Go type ParsedLock: the decoded view of an IPLock, optionally with
the object itself. -/
structure ParsedLock where
  ns : String
  name : List Char
  VNI : Nat
  addrU : Nat
  UID : String
  CreationTime : Int
  Obj : Option IPLock
deriving DecidableEq

/-- The zero value of ParsedLock, what the Go composite literal
ParsedLock with no fields denotes. -/
def zeroParsedLock : ParsedLock := ⟨"", [], 0, 0, "", 0, none⟩

/-- Go func NewParsedLock: parse the lock object name; on parse failure
the lock has no parsed view. -/
def NewParsedLock (ipl : IPLock) : Option ParsedLock :=
  match parseIPLockName ipl.name with
  | some (vni, addrU) =>
      some ⟨ipl.ns, ipl.name, vni, addrU, ipl.uid, ipl.creationTime, some ipl⟩
  | none => none

/-- Go method ParsedLock.Equal: equality on VNI, UID, creation time and
address. -/
def ParsedLock.Equal (x y : ParsedLock) : Prop :=
  x.VNI = y.VNI ∧ x.UID = y.UID ∧ x.CreationTime = y.CreationTime ∧ x.addrU = y.addrU

instance (x y : ParsedLock) : Decidable (x.Equal y) := by
  unfold ParsedLock.Equal; infer_instance

/-- Go method ParsedLock.IsBetterThan: earlier creation time wins; on a
time tie the lexicographically greater UID wins (strings.Compare > 0). -/
def ParsedLock.IsBetterThan (x y : ParsedLock) : Prop :=
  if x.CreationTime ≠ y.CreationTime then x.CreationTime < y.CreationTime
  else y.UID < x.UID

instance (x y : ParsedLock) : Decidable (x.IsBetterThan y) := by
  unfold ParsedLock.IsBetterThan; infer_instance

abbrev ParsedLockList := List ParsedLock

/-- Go method ParsedLockList.Best: the zero ParsedLock on the empty
list, else the fold that keeps the better element. -/
def ParsedLockList.Best (list : ParsedLockList) : ParsedLock :=
  match list with
  | [] => zeroParsedLock
  | ans :: rest =>
      rest.foldl (fun ans elt => if elt.IsBetterThan ans then elt else ans) ans

/-- Go method ParsedLockList.Has: some member is Equal to the element. -/
def ParsedLockList.Has (list : ParsedLockList) (elt : ParsedLock) : Bool :=
  list.any (fun x => decide (x.Equal elt))

/-- Go method ParsedLockList.Append, used with a single element. -/
def ParsedLockList.Append (list : ParsedLockList) (elt : ParsedLock) : ParsedLockList :=
  list ++ [elt]

/-- Go method ParsedLockList.AddFunc: set-semantics insert, appending
the element unless an Equal member exists. -/
def ParsedLockList.AddFunc (list : ParsedLockList) (elt : ParsedLock) :
    ParsedLockList × Bool :=
  if list.any (fun x => decide (x.Equal elt)) then (list, false)
  else (list ++ [elt], true)

/-- Go method ParsedLockList.RemFunc: set-semantics removal of the first
member Equal to the element. -/
def ParsedLockList.RemFunc : ParsedLockList → ParsedLock → ParsedLockList × Bool
  | [], _ => ([], false)
  | x :: xs, elt =>
    if x.Equal elt then (xs, true)
    else
      match ParsedLockList.RemFunc xs elt with
      | (sans, true) => (x :: sans, true)
      | (_, false) => (x :: xs, false)

/-- Go method ParsedLockList.AddListFunc: fold AddFunc over the second
list. -/
def ParsedLockList.AddListFunc (list list2 : ParsedLockList) :
    ParsedLockList × Bool :=
  list2.foldl
    (fun acc elt =>
      let step := ParsedLockList.AddFunc acc.1 elt
      (step.1, acc.2 || step.2))
    (list, false)

theorem equal_iff (x y : ParsedLock) :
    x.Equal y ↔
      (x.VNI = y.VNI ∧ x.UID = y.UID ∧ x.CreationTime = y.CreationTime ∧
        x.addrU = y.addrU) :=
  Iff.rfl

theorem isBetterThan_iff (x y : ParsedLock) :
    x.IsBetterThan y ↔
      (x.CreationTime < y.CreationTime ∨
        (x.CreationTime = y.CreationTime ∧ y.UID < x.UID)) := by
  unfold ParsedLock.IsBetterThan
  by_cases h : x.CreationTime = y.CreationTime
  · simp [h]
  · simp [h]

/-- C7 counterexample: two parsed locks with the same creation time and
UID but different VNIs are not Equal, yet neither IsBetterThan the
other, so IsBetterThan is not total modulo Equal as the claim states. -/
theorem C7_counterexample :
    ¬ (ParsedLock.mk "ns" [] 1 0 "u" 0 none).Equal
        (ParsedLock.mk "ns" [] 2 0 "u" 0 none) ∧
    ¬ (ParsedLock.mk "ns" [] 1 0 "u" 0 none).IsBetterThan
        (ParsedLock.mk "ns" [] 2 0 "u" 0 none) ∧
    ¬ (ParsedLock.mk "ns" [] 2 0 "u" 0 none).IsBetterThan
        (ParsedLock.mk "ns" [] 1 0 "u" 0 none) := by
  refine ⟨?_, ?_, ?_⟩
  · intro h
    exact absurd ((equal_iff _ _).mp h).1 (by decide)
  · intro h
    rcases (isBetterThan_iff _ _).mp h with h | ⟨-, h⟩
    · exact absurd h (by decide)
    · exact lt_irrefl _ h
  · intro h
    rcases (isBetterThan_iff _ _).mp h with h | ⟨-, h⟩
    · exact absurd h (by decide)
    · exact lt_irrefl _ h

/-- C7 amended: IsBetterThan is irreflexive and transitive, and it is
total and asymmetric on every pair of parsed locks that differ in
creation time or UID; pairs agreeing on both of those fields (even when
not Equal, which also compares VNI and address) are incomparable. -/
theorem C7_IsBetterThan_strict_order :
    (∀ x : ParsedLock, ¬ x.IsBetterThan x) ∧
    (∀ x y z : ParsedLock, x.IsBetterThan y → y.IsBetterThan z → x.IsBetterThan z) ∧
    (∀ x y : ParsedLock, (x.CreationTime, x.UID) ≠ (y.CreationTime, y.UID) →
      (x.IsBetterThan y ∨ y.IsBetterThan x) ∧
        ¬ (x.IsBetterThan y ∧ y.IsBetterThan x)) := by
  refine ⟨?_, ?_, ?_⟩
  · intro x
    rw [isBetterThan_iff]
    rintro (h | ⟨-, h⟩)
    · omega
    · exact lt_irrefl _ h
  · intro x y z hxy hyz
    rw [isBetterThan_iff] at hxy hyz ⊢
    rcases hxy with h1 | ⟨e1, u1⟩ <;> rcases hyz with h2 | ⟨e2, u2⟩
    · exact Or.inl (by omega)
    · exact Or.inl (by omega)
    · exact Or.inl (by omega)
    · exact Or.inr ⟨by omega, lt_trans u2 u1⟩
  · intro x y hne
    constructor
    · rcases lt_trichotomy x.CreationTime y.CreationTime with h | h | h
      · exact Or.inl ((isBetterThan_iff x y).mpr (Or.inl h))
      · have hu : x.UID ≠ y.UID := by
          intro he
          exact hne (by rw [h, he])
        rcases lt_trichotomy x.UID y.UID with hu2 | hu2 | hu2
        · exact Or.inr ((isBetterThan_iff y x).mpr (Or.inr ⟨h.symm, hu2⟩))
        · exact absurd hu2 hu
        · exact Or.inl ((isBetterThan_iff x y).mpr (Or.inr ⟨h, hu2⟩))
      · exact Or.inr ((isBetterThan_iff y x).mpr (Or.inl h))
    · rintro ⟨h1, h2⟩
      rw [isBetterThan_iff] at h1 h2
      rcases h1 with h1 | ⟨e1, u1⟩ <;> rcases h2 with h2 | ⟨e2, u2⟩
      · omega
      · omega
      · omega
      · exact lt_irrefl _ (lt_trans u1 u2)

/-- Witness for the amended C7 totality clause at a concrete pair of
locks with distinct creation times. -/
theorem C7_IsBetterThan_strict_order_witness :
    ((ParsedLock.mk "ns" [] 1 0 "u" 0 none).IsBetterThan
        (ParsedLock.mk "ns" [] 1 0 "u" 7 none) ∨
      (ParsedLock.mk "ns" [] 1 0 "u" 7 none).IsBetterThan
        (ParsedLock.mk "ns" [] 1 0 "u" 0 none)) ∧
    ¬ ((ParsedLock.mk "ns" [] 1 0 "u" 0 none).IsBetterThan
        (ParsedLock.mk "ns" [] 1 0 "u" 7 none) ∧
      (ParsedLock.mk "ns" [] 1 0 "u" 7 none).IsBetterThan
        (ParsedLock.mk "ns" [] 1 0 "u" 0 none)) :=
  C7_IsBetterThan_strict_order.2.2
    (ParsedLock.mk "ns" [] 1 0 "u" 0 none)
    (ParsedLock.mk "ns" [] 1 0 "u" 7 none)
    (by decide)

/-- C9: Best of the empty list is the zero ParsedLock (empty namespace
and name, zero VNI and address, empty UID, zero creation time, no
object); Best of a non-empty list is an element of the list. -/
theorem C9_Best_spec :
    ParsedLockList.Best [] = zeroParsedLock ∧
    ∀ (l : ParsedLock) (ls : List ParsedLock),
      ParsedLockList.Best (l :: ls) ∈ l :: ls := by
  constructor
  · rfl
  · intro l ls
    rw [ParsedLockList.Best]
    have hgen : ∀ (rest : List ParsedLock) (start : ParsedLock) (acc : List ParsedLock),
        start ∈ acc →
        rest.foldl (fun ans elt => if elt.IsBetterThan ans then elt else ans) start
          ∈ acc ++ rest := by
      intro rest
      induction rest with
      | nil => intro start acc hs; simpa using hs
      | cons e es ih =>
        intro start acc hs
        simp only [List.foldl_cons]
        by_cases he : e.IsBetterThan start
        · rw [if_pos he]
          have := ih e (acc ++ [e]) (by simp)
          simpa using this
        · rw [if_neg he]
          have := ih start (acc ++ [e]) (by simp [hs])
          simpa using this
    have := hgen ls l [l] (by simp)
    simpa using this

/- ---------------------------------------------------------------------
   Address bitset and the address cache
   Go source: TakeAddress, PickAddress, ReleaseAddress (ipam controller)
   over the map addrCache from VNI to a set of addresses.
   The set implementation (package uint32set) is not part of the given
   sources, so it is modelled from the spec.  The Go map is modelled as
   an association list with the map operations of lookup, assignment and
   deletion.
   --------------------------------------------------------------------- -/

/-- Modelled from the spec: package uint32set and its UInt32SetChooser
interface are not under the given sources.  Spec section 4.1 describes a
per-VNI set of uint32 addresses; it is modelled as a finite set of Nat. -/
abbrev UInt32Set := Finset Nat

/-- Modelled from the spec: Add(x) inserts x and reports whether the set
changed. -/
def usetAdd (s : UInt32Set) (x : Nat) : UInt32Set × Bool :=
  (insert x s, decide (x ∉ s))

/-- Modelled from the spec: Remove(x) deletes x and reports whether the
set changed. -/
def usetRemove (s : UInt32Set) (x : Nat) : UInt32Set × Bool :=
  (s.erase x, decide (x ∈ s))

/-- Modelled from the spec: IsEmpty reports whether the set is empty. -/
def usetIsEmpty (s : UInt32Set) : Bool :=
  decide (s = ∅)

/-- Modelled from the spec: AddOneInRange(lo, hi) picks some free value
in the closed range and inserts it, or reports failure; the spec fixes
the deterministic choice to lowest-free-first. -/
def usetAddOneInRange (s : UInt32Set) (lo hi : Nat) : UInt32Set × Nat × Bool :=
  match (List.range' lo (hi + 1 - lo)).find? (fun x => decide (x ∉ s)) with
  | some x => (insert x s, x, true)
  | none => (s, 0, false)

/-- The addrCache map from VNI to address set, as an association list. -/
abbrev AddrCache := List (Nat × UInt32Set)

/-- Go map read: the value under the key, if present. -/
def cacheGet : AddrCache → Nat → Option UInt32Set
  | [], _ => none
  | (v, s) :: rest, vni => if v = vni then some s else cacheGet rest vni

/-- Go map assignment: replace the value under the key, or append it. -/
def cacheSet : AddrCache → Nat → UInt32Set → AddrCache
  | [], vni, s => [(vni, s)]
  | (v, t) :: rest, vni, s =>
    if v = vni then (vni, s) :: rest else (v, t) :: cacheSet rest vni s

/-- Go map deletion of a key. -/
def cacheDel (cache : AddrCache) (vni : Nat) : AddrCache :=
  cache.filter (fun e => decide (e.1 ≠ vni))

/-- Go method TakeAddress: get or create the set of the VNI and Add. -/
def TakeAddress (cache : AddrCache) (vni addrU : Nat) : AddrCache × Bool :=
  let s := match cacheGet cache vni with
    | some s => s
    | none => ∅
  let r := usetAdd s addrU
  (cacheSet cache vni r.1, r.2)

/-- Go method PickAddress: get or create the set of the VNI and
AddOneInRange; the set stays installed even when the pick fails. -/
def PickAddress (cache : AddrCache) (vni lo hi : Nat) : AddrCache × Nat × Bool :=
  let s := match cacheGet cache vni with
    | some s => s
    | none => ∅
  let r := usetAddOneInRange s lo hi
  (cacheSet cache vni r.1, r.2)

/-- Go method ReleaseAddress: no entry means no change; otherwise Remove
the address, and drop the entry of the VNI when its set became empty. -/
def ReleaseAddress (cache : AddrCache) (vni addrU : Nat) : AddrCache × Bool :=
  match cacheGet cache vni with
  | none => (cache, false)
  | some s =>
    let r := usetRemove s addrU
    let cache2 := cacheSet cache vni r.1
    if usetIsEmpty r.1 then (cacheDel cache2 vni, r.2) else (cache2, r.2)

theorem cacheGet_cacheSet_self (cache : AddrCache) (vni : Nat) (s : UInt32Set) :
    cacheGet (cacheSet cache vni s) vni = some s := by
  induction cache with
  | nil => simp [cacheSet, cacheGet]
  | cons e rest ih =>
    obtain ⟨v, t⟩ := e
    by_cases h : v = vni
    · simp [cacheSet, cacheGet, h]
    · simp [cacheSet, cacheGet, h, ih]

theorem cacheGet_cacheDel_self (cache : AddrCache) (vni : Nat) :
    cacheGet (cacheDel cache vni) vni = none := by
  induction cache with
  | nil => rfl
  | cons e rest ih =>
    obtain ⟨v, t⟩ := e
    by_cases h : v = vni
    · simpa [cacheDel, h] using ih
    · simpa [cacheDel, cacheGet, h] using ih

/-- C10: ReleaseAddress on a VNI with no cache entry reports no change
and leaves the cache unchanged; removing the last address of a VNI
deletes the entry of that VNI; and afterwards the entry of that VNI is
never an empty set. -/
theorem C10_ReleaseAddress_spec :
    (∀ (cache : AddrCache) (vni addrU : Nat),
      cacheGet cache vni = none → ReleaseAddress cache vni addrU = (cache, false)) ∧
    (∀ (cache : AddrCache) (vni addrU : Nat),
      cacheGet cache vni = some {addrU} →
        cacheGet (ReleaseAddress cache vni addrU).1 vni = none) ∧
    (∀ (cache : AddrCache) (vni addrU : Nat) (s2 : UInt32Set),
      cacheGet (ReleaseAddress cache vni addrU).1 vni = some s2 → s2 ≠ ∅) := by
  refine ⟨?_, ?_, ?_⟩
  · intro cache vni addrU h
    simp [ReleaseAddress, h]
  · intro cache vni addrU h
    have herase : ({addrU} : UInt32Set).erase addrU = ∅ := Finset.erase_singleton addrU
    simp only [ReleaseAddress, h, usetRemove, usetIsEmpty, herase]
    simp [cacheGet_cacheDel_self]
  · intro cache vni addrU s2
    match hget : cacheGet cache vni with
    | none =>
      simp only [ReleaseAddress, hget]
      intro hsome
      simp [hget] at hsome
    | some s =>
      simp only [ReleaseAddress, hget, usetRemove, usetIsEmpty]
      by_cases hemp : s.erase addrU = ∅
      · simp [hemp, cacheGet_cacheDel_self]
      · rw [if_neg (by simpa using hemp), cacheGet_cacheSet_self]
        intro hsome
        obtain rfl : s.erase addrU = s2 := by injection hsome
        exact hemp

/-- Witness for C10 at a concrete cache: a missing VNI is a no-change
no-op, and removing the only address of VNI 5 deletes its entry. -/
theorem C10_ReleaseAddress_spec_witness :
    ReleaseAddress [] 5 1 = ([], false) ∧
    cacheGet (ReleaseAddress [(5, {9})] 5 9).1 5 = none :=
  ⟨C10_ReleaseAddress_spec.1 [] 5 1 rfl,
   C10_ReleaseAddress_spec.2.1 [(5, {9})] 5 9 rfl⟩

theorem usetAddOneInRange_mem (s : UInt32Set) (lo hi a : Nat)
    (h : (usetAddOneInRange s lo hi).2 = (a, true)) : lo ≤ a ∧ a ≤ hi := by
  unfold usetAddOneInRange at h
  cases hfind : (List.range' lo (hi + 1 - lo)).find? (fun x => decide (x ∉ s)) with
  | none =>
    rw [hfind] at h
    simp at h
  | some x =>
    rw [hfind] at h
    simp only [Prod.mk.injEq] at h
    have hmem : x ∈ List.range' lo (hi + 1 - lo) :=
      List.mem_of_find?_eq_some hfind
    have hb := List.mem_range'_1.mp hmem
    obtain ⟨hx, -⟩ := h
    omega

/-- The pickable-range computation at the top of pickAndLockAddress:
the block is shrunk by two at the bottom and one at the top when
last minus base is at least 4. -/
def pickBounds (subnetBaseU subnetLastU : Nat) : Nat × Nat :=
  if subnetLastU - subnetBaseU ≥ 4 then (subnetBaseU + 2, subnetLastU - 1)
  else (subnetBaseU, subnetLastU)

/-- C2 counterexample: for the block from 0 to 3, of size exactly 4, the
claim demands the shrunk range from 2 to 2, but the code uses the full
block, and the pick on an empty cache returns the base address 0, one of
the first two addresses of the block. -/
theorem C2_counterexample :
    pickBounds 0 3 ≠ (0 + 2, 3 - 1) ∧
    pickBounds 0 3 = (0, 3) ∧
    (PickAddress [] 7 (pickBounds 0 3).1 (pickBounds 0 3).2).2 = (0, true) := by
  refine ⟨by decide, by decide, ?_⟩
  rfl

/-- C2 amended: the block is picked in full when its size is below 5,
and shrunk to drop the first two and last one addresses when its size is
at least 5 (the code tests last minus base at least 4, so a block of
size exactly 4 is not shrunk); every successful pick lies within the
computed range. -/
theorem C2_pickBounds_spec :
    (∀ base last : Nat, base ≤ last → last + 1 - base < 5 →
      pickBounds base last = (base, last)) ∧
    (∀ base last : Nat, base ≤ last → last + 1 - base ≥ 5 →
      pickBounds base last = (base + 2, last - 1)) ∧
    (∀ (cache : AddrCache) (vni lo hi a : Nat),
      (PickAddress cache vni lo hi).2 = (a, true) → lo ≤ a ∧ a ≤ hi) := by
  refine ⟨?_, ?_, ?_⟩
  · intro base last hle hsz
    rw [pickBounds, if_neg (by omega)]
  · intro base last hle hsz
    rw [pickBounds, if_pos (by omega)]
  · intro cache vni lo hi a hres
    simp only [PickAddress] at hres
    exact usetAddOneInRange_mem _ lo hi a hres

/-- Witness for the amended C2 at concrete blocks: size 3 is unshrunk,
size 11 is shrunk, and a successful pick in the range 12 to 19 is within
bounds. -/
theorem C2_pickBounds_spec_witness :
    pickBounds 10 12 = (10, 12) ∧
    pickBounds 10 20 = (12, 19) ∧
    (12 ≤ 12 ∧ 12 ≤ 19) :=
  ⟨C2_pickBounds_spec.1 10 12 (by decide) (by decide),
   C2_pickBounds_spec.2.1 10 20 (by decide) (by decide),
   C2_pickBounds_spec.2.2 [] 7 12 19 12 rfl⟩

/- ---------------------------------------------------------------------
   The create loop of pickAndLockAddress
   Go source: the for loop of pickAndLockAddress that creates the IPLock
   object and handles AlreadyExists by a live Get.
   The store is external and may change between the Create and the Get,
   so each loop iteration is driven by a pair of responses: the result
   of the Create call and, when that is AlreadyExists, the result of the
   subsequent Get.
   --------------------------------------------------------------------- -/

/-- Outcome of one Create RPC. -/
inductive CreateResp where
  | created (ipl2 : IPLock)
  | alreadyExists
  | invalidErr
  | otherErr
deriving DecidableEq

/-- Outcome of the Get RPC issued after AlreadyExists. -/
inductive GetResp where
  | found (ipl2 : IPLock)
  | notFound
  | getErr
deriving DecidableEq

/-- How the loop ends.  locked carries the object the code breaks out
with (its own successful Create, or the recovered existing lock) and
means a nil error; collision is the non-nil cache-incoherence error;
fetchFailed is the non-nil error wrapping a failed Get; invalidDropped
is the permanent-error path, which sets err to nil after logging;
transientFailed is the wrapped retryable create error; outOfTrace means
the response trace ended while the loop would have iterated again. -/
inductive CreateLoopResult where
  | locked (ipl2 : IPLock)
  | collision
  | fetchFailed
  | invalidDropped
  | transientFailed
  | outOfTrace
deriving DecidableEq

/-- The for loop of pickAndLockAddress, lines 703 to 751 of the Go
source, as a function of the response trace.  The cache of the
controller is threaded through because two of the exits call
ReleaseAddress on the picked address and the others must not. -/
def createLockLoop (name attUID : String) (vni ipForStatusU : Nat)
    (cache : AddrCache) : List (CreateResp × GetResp) → CreateLoopResult × AddrCache
  | [] => (CreateLoopResult.outOfTrace, cache)
  | (cresp, gresp) :: rest =>
    match cresp with
    | CreateResp.created ipl2 => (CreateLoopResult.locked ipl2, cache)
    | CreateResp.alreadyExists =>
      match gresp with
      | GetResp.found ipl2 =>
        let own := GetOwner ipl2.owners "NetworkAttachment"
        if own.1 = name ∧ own.2 = attUID then (CreateLoopResult.locked ipl2, cache)
        else (CreateLoopResult.collision, cache)
      | GetResp.notFound => createLockLoop name attUID vni ipForStatusU cache rest
      | GetResp.getErr => (CreateLoopResult.fetchFailed, cache)
    | CreateResp.invalidErr =>
      (CreateLoopResult.invalidDropped, (ReleaseAddress cache vni ipForStatusU).1)
    | CreateResp.otherErr =>
      (CreateLoopResult.transientFailed, (ReleaseAddress cache vni ipForStatusU).1)

/-- C4: when Create fails with AlreadyExists, the loop Gets the existing
lock; if its controller owner reference is this attachment name and UID
it proceeds with the retrieved lock and no error; if the Get returns
NotFound it retries the Create on the rest of the trace; if the lock is
owned by someone else it ends with a non-nil error and the cache is left
untouched, so the picked address bit stays set. -/
theorem C4_already_exists_handling :
    (∀ (name attUID : String) (vni ipU : Nat) (cache : AddrCache)
        (ipl2 : IPLock) (rest : List (CreateResp × GetResp)),
      GetOwner ipl2.owners "NetworkAttachment" = (name, attUID) →
      createLockLoop name attUID vni ipU cache
          ((CreateResp.alreadyExists, GetResp.found ipl2) :: rest)
        = (CreateLoopResult.locked ipl2, cache)) ∧
    (∀ (name attUID : String) (vni ipU : Nat) (cache : AddrCache)
        (rest : List (CreateResp × GetResp)),
      createLockLoop name attUID vni ipU cache
          ((CreateResp.alreadyExists, GetResp.notFound) :: rest)
        = createLockLoop name attUID vni ipU cache rest) ∧
    (∀ (name attUID : String) (vni ipU : Nat) (cache : AddrCache)
        (ipl2 : IPLock) (rest : List (CreateResp × GetResp)),
      GetOwner ipl2.owners "NetworkAttachment" ≠ (name, attUID) →
      createLockLoop name attUID vni ipU cache
          ((CreateResp.alreadyExists, GetResp.found ipl2) :: rest)
        = (CreateLoopResult.collision, cache)) := by
  refine ⟨?_, ?_, ?_⟩
  · intro name attUID vni ipU cache ipl2 rest hown
    have h1 : (GetOwner ipl2.owners "NetworkAttachment").1 = name := by rw [hown]
    have h2 : (GetOwner ipl2.owners "NetworkAttachment").2 = attUID := by rw [hown]
    simp [createLockLoop, h1, h2]
  · intro name attUID vni ipU cache rest
    simp [createLockLoop]
  · intro name attUID vni ipU cache ipl2 rest hown
    have hcond : ¬ ((GetOwner ipl2.owners "NetworkAttachment").1 = name ∧
        (GetOwner ipl2.owners "NetworkAttachment").2 = attUID) := by
      intro hc
      exact hown (Prod.ext hc.1 hc.2)
    simp [createLockLoop, if_neg hcond]

/-- Witness for C4 at a concrete trace: a lock owned by the attachment
recovers it, a NotFound retries, and a foreign owner is a collision that
leaves the cache bit for address 3 under VNI 7 in place. -/
theorem C4_already_exists_handling_witness :
    createLockLoop "att1" "uidA" 7 3 [(7, {3})]
        [(CreateResp.alreadyExists,
          GetResp.found ⟨"ns", [], "lockU", 0,
            [⟨"NetworkAttachment", "att1", "uidA", some true⟩], "sub"⟩)]
      = (CreateLoopResult.locked ⟨"ns", [], "lockU", 0,
          [⟨"NetworkAttachment", "att1", "uidA", some true⟩], "sub"⟩, [(7, {3})]) ∧
    createLockLoop "att1" "uidA" 7 3 [(7, {3})]
        [(CreateResp.alreadyExists, GetResp.notFound)]
      = createLockLoop "att1" "uidA" 7 3 [(7, {3})] [] ∧
    createLockLoop "att1" "uidA" 7 3 [(7, {3})]
        [(CreateResp.alreadyExists,
          GetResp.found ⟨"ns", [], "lockU", 0,
            [⟨"NetworkAttachment", "att2", "uidB", some true⟩], "sub"⟩)]
      = (CreateLoopResult.collision, [(7, {3})]) :=
  ⟨C4_already_exists_handling.1 "att1" "uidA" 7 3 [(7, {3})] _ _ rfl,
   C4_already_exists_handling.2.1 "att1" "uidA" 7 3 [(7, {3})] [],
   C4_already_exists_handling.2.2 "att1" "uidA" 7 3 [(7, {3})] _ [] (by decide)⟩

/- ---------------------------------------------------------------------
   Subnet validator conflicts cache
   Go source: type conflictsCache and method updateConflictsCache of the
   Validator (validator.go).
   The type subnet.Summary of package util/parse/network/subnet is not
   under the given sources and is modelled from the spec.
   --------------------------------------------------------------------- -/

/-- A namespaced name, the key of the conflicts map. -/
structure NamespacedName where
  ns : String
  name : String
deriving DecidableEq

/-- Modelled from the spec: type Summary of package
util/parse/network/subnet is not under the given sources.  Spec section
4.6 defines Summary(s) as the namespace, name, VNI, baseU and lastU of
the subnet. -/
structure Summary where
  nsn : NamespacedName
  VNI : Nat
  BaseU : Nat
  LastU : Nat
deriving DecidableEq

/-- Modelled from the spec: method Contains of Summary is not under the
given sources.  The only spec sentence covering its use (section 4.6
step 4) states the harvest test of updateConflictsCache as the cached
ownerSummary differing in VNI or CIDR from the new summary, so Contains
is modelled as agreement of the CIDR block bounds. -/
def Summary.Contains (s1 s2 : Summary) : Prop :=
  s1.BaseU = s2.BaseU ∧ s1.LastU = s2.LastU

instance (s1 s2 : Summary) : Decidable (s1.Contains s2) := by
  unfold Summary.Contains; infer_instance

/-- Go type conflictsCache: the last-seen summary of the owner subnet
and the subnets recorded as in conflict with it. -/
structure conflictsCache where
  ownerSummary : Summary
  rivals : List NamespacedName
deriving DecidableEq

/-- The conflicts map of the Validator, as an association list. -/
abbrev ConflictsMap := List (NamespacedName × conflictsCache)

/-- Go map read for the conflicts map. -/
def conflictsGet : ConflictsMap → NamespacedName → Option conflictsCache
  | [], _ => none
  | (k, c) :: rest, nsn => if k = nsn then some c else conflictsGet rest nsn

/-- Go map assignment for the conflicts map. -/
def conflictsSet : ConflictsMap → NamespacedName → conflictsCache → ConflictsMap
  | [], nsn, c => [(nsn, c)]
  | (k, d) :: rest, nsn, c =>
    if k = nsn then (nsn, c) :: rest else (k, d) :: conflictsSet rest nsn c

/-- Go method updateConflictsCache: create an empty entry when absent;
otherwise harvest and reset the rivals when the owner summary changed in
VNI or CIDR; in every case install the new summary.  Returns the
harvested rivals. -/
def updateConflictsCache (conflicts : ConflictsMap) (s : Summary) :
    List NamespacedName × ConflictsMap :=
  match conflictsGet conflicts s.nsn with
  | none => ([], conflictsSet conflicts s.nsn ⟨s, []⟩)
  | some c =>
    if s.VNI ≠ c.ownerSummary.VNI ∨ ¬ s.Contains c.ownerSummary then
      (c.rivals, conflictsSet conflicts s.nsn ⟨s, []⟩)
    else
      ([], conflictsSet conflicts s.nsn ⟨s, c.rivals⟩)

/-- C8: with an existing entry, updateConflictsCache harvests the cached
rivals and resets the rivals to empty exactly when the new summary
differs from the cached ownerSummary in VNI or CIDR block; in every case
the new summary is installed as ownerSummary; with no entry, an entry
with empty rivals is created and nothing is harvested. -/
theorem C8_updateConflictsCache_spec :
    (∀ (m : ConflictsMap) (s : Summary),
      conflictsGet m s.nsn = none →
      updateConflictsCache m s = ([], conflictsSet m s.nsn ⟨s, []⟩)) ∧
    (∀ (m : ConflictsMap) (s : Summary) (c : conflictsCache),
      conflictsGet m s.nsn = some c →
      (s.VNI ≠ c.ownerSummary.VNI ∨ ¬ s.Contains c.ownerSummary) →
      updateConflictsCache m s = (c.rivals, conflictsSet m s.nsn ⟨s, []⟩)) ∧
    (∀ (m : ConflictsMap) (s : Summary) (c : conflictsCache),
      conflictsGet m s.nsn = some c →
      s.VNI = c.ownerSummary.VNI → s.Contains c.ownerSummary →
      updateConflictsCache m s = ([], conflictsSet m s.nsn ⟨s, c.rivals⟩)) := by
  refine ⟨?_, ?_, ?_⟩
  · intro m s h
    simp [updateConflictsCache, h]
  · intro m s c h hcond
    rw [updateConflictsCache, h]
    simp only [if_pos hcond]
  · intro m s c h hvni hcont
    have hcond : ¬ (s.VNI ≠ c.ownerSummary.VNI ∨ ¬ s.Contains c.ownerSummary) := by
      rintro (hne | hnc)
      · exact hne hvni
      · exact hnc hcont
    rw [updateConflictsCache, h]
    simp only [if_neg hcond]

/-- Witness for C8 at a concrete map: a VNI change harvests the one
recorded rival and resets the rivals list while installing the new
summary. -/
theorem C8_updateConflictsCache_spec_witness :
    updateConflictsCache
        [(⟨"ex", "s1"⟩, ⟨⟨⟨"ex", "s1"⟩, 7, 0, 255⟩, [⟨"ex", "s2"⟩]⟩)]
        ⟨⟨"ex", "s1"⟩, 8, 0, 255⟩
      = ([⟨"ex", "s2"⟩],
         [(⟨"ex", "s1"⟩, ⟨⟨⟨"ex", "s1"⟩, 8, 0, 255⟩, []⟩)]) :=
  C8_updateConflictsCache_spec.2.1
    [(⟨"ex", "s1"⟩, ⟨⟨⟨"ex", "s1"⟩, 7, 0, 255⟩, [⟨"ex", "s2"⟩]⟩)]
    ⟨⟨"ex", "s1"⟩, 8, 0, 255⟩
    ⟨⟨⟨"ex", "s1"⟩, 7, 0, 255⟩, [⟨"ex", "s2"⟩]⟩
    rfl
    (Or.inl (by decide))

/- ---------------------------------------------------------------------
   The IPAM reconciliation of one NetworkAttachment
   Go source: processNetworkAttachment, analyzeAndRelease,
   IPNetToBoundsU, deleteIPLockObject, pickAndLockAddress, setIPInStatus,
   getNetworkAttachmentData, clearNetworkAttachmentData.
   The world holds the attachment and subnet as the listers of the
   reconciled key would return them, the lock store (the informer cache
   and the live store are one coherent view, so the retry branch of the
   create loop, which needs the named lock to vanish between the Create
   and the Get, cannot arise and the loop body runs once), the
   per-attachment anticipation record, and the address cache.  Store
   writes succeed; a Create against a taken name is the AlreadyExists
   case.  The store assigns nextUID to a created lock and nextRV to an
   updated attachment.  Status.IPv4 is modelled as the decoded uint32 of
   the dotted quad, none standing for the empty string.
   --------------------------------------------------------------------- -/

/-- Go type NetworkAttachmentData: the anticipation record. -/
structure NetworkAttachmentData where
  anticipatedIPv4 : Option Nat
  anticipatingResourceVersion : String
  anticipatedResourceVersion : String
  anticipationSubnetRV : String
deriving DecidableEq

/-- The zero value of NetworkAttachmentData. -/
def zeroNAData : NetworkAttachmentData := ⟨none, "", "", ""⟩

/-- A NetworkAttachment as the reconciler reads it. -/
structure NetworkAttachment where
  ns : String
  name : String
  uid : String
  resourceVersion : String
  creationTime : Int
  specSubnet : String
  statusIPv4 : Option Nat
  statusAddressVNI : Nat
  statusLockUID : String
deriving DecidableEq

/-- A Subnet as the reconciler reads it; cidr is the parse of Spec.IPv4,
the masked base address and the mask size, none when malformed. -/
structure Subnet where
  name : String
  resourceVersion : String
  VNI : Nat
  cidr : Option (Nat × Nat)
deriving DecidableEq

/-- Go func IPNetToBoundsU: the first and last address of the block. -/
def IPNetToBoundsU (baseU ones : Nat) : Nat × Nat :=
  (baseU, baseU + (2 ^ (32 - ones) - 1))

/-- The local state of the consider closure of analyzeAndRelease. -/
structure ConsiderState where
  timeSlippers : ParsedLockList
  undesiredLocks : ParsedLockList
  usableLocks : ParsedLockList
  lockInStatus : ParsedLock
  considered : List Nat
deriving DecidableEq

/-- The initial consider state. -/
def emptyConsiderState : ConsiderState := ⟨[], [], [], zeroParsedLock, []⟩

/-- The consider closure of analyzeAndRelease applied to one lock:
parse, record the address as considered, then bin the lock as
timeSlipper (owner UID not this attachment), undesired (wrong VNI or
address outside the block) or usable, remembering it as lockInStatus
when its UID and address match the attachment status. -/
def considerOne (att : Option NetworkAttachment)
    (desiredVNI desiredBaseU desiredLastU : Nat)
    (st : ConsiderState) (ipl : IPLock) : ConsiderState :=
  match NewParsedLock ipl with
  | none => st
  | some parsed =>
    let st1 := { st with considered := parsed.addrU :: st.considered }
    match att with
    | some a =>
      if (GetOwner ipl.owners "NetworkAttachment").2 ≠ a.uid then
        { st1 with timeSlippers := st1.timeSlippers.Append parsed }
      else if parsed.VNI ≠ desiredVNI ∨ parsed.addrU < desiredBaseU ∨
          parsed.addrU > desiredLastU then
        { st1 with undesiredLocks := st1.undesiredLocks.Append parsed }
      else
        let st2 := if parsed.UID = a.statusLockUID ∧ a.statusIPv4 ≠ none ∧
            a.statusIPv4 = some parsed.addrU
          then { st1 with lockInStatus := parsed } else st1
        { st2 with usableLocks := st2.usableLocks.Append parsed }
    | none =>
      if parsed.VNI ≠ desiredVNI ∨ parsed.addrU < desiredBaseU ∨
          parsed.addrU > desiredLastU then
        { st1 with undesiredLocks := st1.undesiredLocks.Append parsed }
      else
        { st1 with usableLocks := st1.usableLocks.Append parsed }

/-- The reverse index owningAttachment of the lock informer: the locks
whose controller owner references name the attachment; the index is
namespace-blind. -/
def ownedIndex (locks : List IPLock) (name : String) : List IPLock :=
  locks.filter (fun l => decide (name ∈ OwningAttachments l.owners))

/-- A live Get of a lock by namespace and object name. -/
def storeGetLock (locks : List IPLock) (ns : String) (nm : List Char) :
    Option IPLock :=
  locks.find? (fun l => decide (l.ns = ns ∧ l.name = nm))

/-- Go func deleteIPLockObject: Delete by namespace and name with a UID
precondition; NotFound and Gone count as success. -/
def deleteIPLockObject (locks : List IPLock) (parsed : ParsedLock) : List IPLock :=
  locks.filter
    (fun l => decide (¬ (l.ns = parsed.ns ∧ l.name = parsed.name ∧
      l.uid = parsed.UID)))

/-- The anticipation invalidation condition of analyzeAndRelease,
line 607 of the Go source, with the Go operator precedence: att == nil,
or (anticipatingRV differs and anticipatedRV differs), or the subnet RV
differs. -/
def anticipationStale (att : Option NetworkAttachment)
    (nd : NetworkAttachmentData) (subnetRV : String) : Bool :=
  match att with
  | none => true
  | some a =>
    (decide (nd.anticipatingResourceVersion ≠ a.resourceVersion) &&
      decide (nd.anticipatedResourceVersion ≠ a.resourceVersion)) ||
    decide (nd.anticipationSubnetRV ≠ subnetRV)

/-- What analyzeAndRelease returns, together with the lock store after
the deletions, the anticipation record after the invalidation check, and
the ghost list of the locks it released. -/
structure AnalyzeResult where
  subnetRV : String
  desiredVNI : Nat
  desiredBaseU : Nat
  desiredLastU : Nat
  lockInStatus : ParsedLock
  lockForStatus : ParsedLock
  ok : Bool
  locks : List IPLock
  nadat : Option NetworkAttachmentData
  released : ParsedLockList
deriving DecidableEq

/-- The lock-enumeration stage of analyzeAndRelease: fold the consider
closure over the index of locks owning this attachment name, then fold
in the lock named by the status address when that address was not yet
considered and its live Get finds it pointing back at this attachment
by name. -/
def considerStage (ns name : String) (att : Option NetworkAttachment)
    (dV dB dL : Nat) (locks : List IPLock) : ConsiderState :=
  let st1 := (ownedIndex locks name).foldl (considerOne att dV dB dL)
    emptyConsiderState
  match att with
  | some a =>
    match a.statusIPv4 with
    | some u =>
      if u ∈ st1.considered then st1
      else
        match storeGetLock locks ns (makeIPLockName2 dV (Uint32ToIPv4 u)) with
        | some ipl =>
          if (GetOwner ipl.owners "NetworkAttachment").1 = name
          then considerOne att dV dB dL st1 ipl else st1
        | none => st1
    | none => st1
  | none => st1

/-- The keep-or-release choice of analyzeAndRelease: with no attachment
everything usable is released; with a lockInStatus it is kept and the
rest released; otherwise on a non-empty usable list the Best is elected
as lockForStatus and the rest released. -/
def releaseChoice (att : Option NetworkAttachment) (st2 : ConsiderState) :
    ParsedLock × ParsedLockList :=
  match att with
  | none => (zeroParsedLock, st2.usableLocks)
  | some _ =>
    if st2.lockInStatus.Obj ≠ none then
      (zeroParsedLock, (st2.usableLocks.RemFunc st2.lockInStatus).1)
    else if st2.usableLocks.length > 0 then
      (ParsedLockList.Best st2.usableLocks,
       (st2.usableLocks.RemFunc (ParsedLockList.Best st2.usableLocks)).1)
    else (zeroParsedLock, [])

/-- The part of analyzeAndRelease after the subnet has been resolved:
enumerate the owned locks, run the anticipation invalidation, choose
what to keep, and delete the release set. -/
def analyzeRest (ns name : String) (att : Option NetworkAttachment)
    (subnetRV : String) (dV dB dL : Nat) (locks : List IPLock)
    (nadat : Option NetworkAttachmentData) : AnalyzeResult :=
  let st2 := considerStage ns name att dV dB dL locks
  let nadat2 := match nadat with
    | none => none
    | some nd =>
      if anticipationStale att nd subnetRV then some zeroNAData else some nd
  let pick := releaseChoice att st2
  let locksToRelease := (st2.undesiredLocks.AddListFunc pick.2).1
  let locks2 := locksToRelease.foldl deleteIPLockObject locks
  ⟨subnetRV, dV, dB, dL, st2.lockInStatus, pick.1, true, locks2, nadat2,
    locksToRelease⟩

/-- Go method analyzeAndRelease.  With a live attachment, a missing
subnet or a malformed CIDR returns early with ok false, before the
anticipation check and before any deletion; otherwise the desired VNI
and block bounds are taken from the subnet.  With no attachment the
desired values stay zero and the subnet is not consulted. -/
def analyzeAndRelease (ns name : String) (att : Option NetworkAttachment)
    (subnet : Option Subnet) (locks : List IPLock)
    (nadat : Option NetworkAttachmentData) : AnalyzeResult :=
  match att with
  | some _ =>
    match subnet with
    | none =>
      ⟨".", 0, 0, 0, zeroParsedLock, zeroParsedLock, false, locks, nadat, []⟩
    | some sn =>
      match sn.cidr with
      | none =>
        ⟨sn.resourceVersion, sn.VNI, 0, 0, zeroParsedLock, zeroParsedLock,
          false, locks, nadat, []⟩
      | some (b, ones) =>
        let bounds := IPNetToBoundsU b ones
        analyzeRest ns name att sn.resourceVersion sn.VNI bounds.1 bounds.2
          locks nadat
  | none => analyzeRest ns name none "." 0 0 0 locks nadat

/-- Outcome of pickAndLockAddress in the coherent-store world: a locked
address with its parsed lock, exhaustion, or a collision with a lock of
a foreign owner. -/
inductive PickResult where
  | got (lockForStatus : ParsedLock) (ipForStatusU : Nat)
  | errNoAddress
  | errCollision
deriving DecidableEq

/-- Go method pickAndLockAddress over the coherent store: shrink the
block, pick a free address, create the lock object; a taken name is the
AlreadyExists case, answered by the Get of the same store, so it is
either this attachment's lock (recovered) or a foreign one (collision,
with no ReleaseAddress).  The permanent-invalid and transient create
failures cannot arise here. -/
def pickAndLockAddress (ns name : String) (a : NetworkAttachment)
    (subnetName : String) (vni subnetBaseU subnetLastU : Nat)
    (locks : List IPLock) (cache : AddrCache) (nextUID : String) (now : Int) :
    PickResult × List IPLock × AddrCache :=
  let bounds := pickBounds subnetBaseU subnetLastU
  let pr := PickAddress cache vni bounds.1 bounds.2
  let cache1 := pr.1
  if pr.2.2 = false then (PickResult.errNoAddress, locks, cache1)
  else
    let ipU := pr.2.1
    let lockName := makeIPLockName2 vni (Uint32ToIPv4 ipU)
    match storeGetLock locks ns lockName with
    | none =>
      (PickResult.got
        ⟨ns, lockName, vni, ipU, nextUID, now,
          some ⟨ns, lockName, nextUID, now,
            [⟨"NetworkAttachment", name, a.uid, some true⟩], subnetName⟩⟩ ipU,
       locks ++ [⟨ns, lockName, nextUID, now,
         [⟨"NetworkAttachment", name, a.uid, some true⟩], subnetName⟩],
       cache1)
    | some existing =>
      if (GetOwner existing.owners "NetworkAttachment").1 = name ∧
          (GetOwner existing.owners "NetworkAttachment").2 = a.uid then
        (PickResult.got
          ⟨ns, lockName, vni, ipU, existing.uid, existing.creationTime,
            some existing⟩ ipU, locks, cache1)
      else (PickResult.errCollision, locks, cache1)

/-- Go method setIPInStatus: copy the attachment, set the three status
fields, Update (which succeeds, the attachment being present, and
assigns the next resource version), then record the anticipation. -/
def setIPInStatus (a : NetworkAttachment) (subnetRV : String)
    (lockForStatus : ParsedLock) (ipU : Nat) (nextRV : String) :
    NetworkAttachment × NetworkAttachmentData :=
  ({ a with statusLockUID := lockForStatus.UID,
            statusAddressVNI := lockForStatus.VNI,
            statusIPv4 := some ipU,
            resourceVersion := nextRV },
   ⟨some ipU, a.resourceVersion, nextRV, subnetRV⟩)

/-- The world of one reconciliation. -/
structure World where
  att : Option NetworkAttachment
  subnet : Option Subnet
  locks : List IPLock
  nadat : Option NetworkAttachmentData
  addrCache : AddrCache
  nextUID : String
  nextRV : String
  now : Int
deriving DecidableEq

/-- The body of processNetworkAttachment for a live attachment after a
successful analyzeAndRelease: keep the lock in status, or trust
anticipation, or elect the recovered lock and write it to status, or
pick and lock a fresh address and write that to status. -/
def reconcileLive (ns name : String) (w : World) (a : NetworkAttachment)
    (ar : AnalyzeResult) : World × Bool :=
  let w1 : World := { w with locks := ar.locks, nadat := ar.nadat }
  if ar.lockInStatus.Obj ≠ none then (w1, false)
  else
    let nd := ar.nadat.getD zeroNAData
    if ar.lockForStatus.Obj ≠ none then
      if nd.anticipatedIPv4 = some ar.lockForStatus.addrU then (w1, false)
      else
        let upd := setIPInStatus a ar.subnetRV ar.lockForStatus
          ar.lockForStatus.addrU w.nextRV
        ({ w1 with att := some upd.1, nadat := some upd.2 }, false)
    else if nd.anticipatedIPv4 ≠ none then (w1, false)
    else
      match pickAndLockAddress ns name a a.specSubnet ar.desiredVNI
          ar.desiredBaseU ar.desiredLastU ar.locks w.addrCache w.nextUID
          w.now with
      | (PickResult.got lockForStatus ipU, locks2, cache2) =>
        let upd := setIPInStatus a ar.subnetRV lockForStatus ipU w.nextRV
        let w2 : World := { w1 with att := some upd.1, locks := locks2, addrCache := cache2, nadat := some upd.2 }
        (w2, false)
      | (PickResult.errNoAddress, locks2, cache2) =>
        ({ w1 with locks := locks2, addrCache := cache2 }, true)
      | (PickResult.errCollision, locks2, cache2) =>
        ({ w1 with locks := locks2, addrCache := cache2 }, true)

/-- Go method processNetworkAttachment; the Bool result is whether a
non-nil error was returned (true requeues the key). -/
def processNetworkAttachment (ns name : String) (w : World) : World × Bool :=
  let att := w.att
  let nadat0 := match w.nadat with
    | some nd => some nd
    | none =>
      match att with
      | some _ => some zeroNAData
      | none => none
  let ar := analyzeAndRelease ns name att w.subnet w.locks nadat0
  if ¬ ar.ok then ({ w with locks := ar.locks, nadat := ar.nadat }, false)
  else
    match att with
    | none => ({ w with locks := ar.locks, nadat := none }, false)
    | some a => reconcileLive ns name w a ar

theorem ParsedLock.Equal_refl (x : ParsedLock) : x.Equal x :=
  ⟨rfl, rfl, rfl, rfl⟩

theorem AddFunc_sub {l : ParsedLockList} {e q : ParsedLock}
    (h : q ∈ (l.AddFunc e).1) : q ∈ l ∨ q = e := by
  unfold ParsedLockList.AddFunc at h
  by_cases hc : l.any (fun x => decide (x.Equal e))
  · rw [if_pos hc] at h
    exact Or.inl h
  · rw [if_neg hc] at h
    rcases List.mem_append.mp h with h | h
    · exact Or.inl h
    · simp only [List.mem_singleton] at h
      exact Or.inr h

theorem AddFunc_sup {l : ParsedLockList} {e q : ParsedLock}
    (h : q ∈ l) : q ∈ (l.AddFunc e).1 := by
  unfold ParsedLockList.AddFunc
  by_cases hc : l.any (fun x => decide (x.Equal e))
  · rw [if_pos hc]
    exact h
  · rw [if_neg hc]
    exact List.mem_append.mpr (Or.inl h)

theorem addListAux_sup :
    ∀ (l2 : ParsedLockList) (acc : ParsedLockList × Bool) (q : ParsedLock),
      q ∈ acc.1 →
      q ∈ (l2.foldl
        (fun acc elt =>
          let step := ParsedLockList.AddFunc acc.1 elt
          (step.1, acc.2 || step.2)) acc).1 := by
  intro l2
  induction l2 with
  | nil => intro acc q h; exact h
  | cons e es ih =>
    intro acc q h
    exact ih _ q (AddFunc_sup h)

theorem addListAux_sub :
    ∀ (l2 : ParsedLockList) (acc : ParsedLockList × Bool) (q : ParsedLock),
      q ∈ (l2.foldl
        (fun acc elt =>
          let step := ParsedLockList.AddFunc acc.1 elt
          (step.1, acc.2 || step.2)) acc).1 →
      q ∈ acc.1 ∨ q ∈ l2 := by
  intro l2
  induction l2 with
  | nil => intro acc q h; exact Or.inl h
  | cons e es ih =>
    intro acc q h
    rcases ih _ q h with h2 | h2
    · rcases AddFunc_sub h2 with h3 | h3
      · exact Or.inl h3
      · exact Or.inr (by simp [h3])
    · exact Or.inr (List.mem_cons_of_mem _ h2)

theorem addListAux_covers :
    ∀ (l2 : ParsedLockList) (acc : ParsedLockList × Bool) (q : ParsedLock),
      q ∈ l2 →
      ∃ r, r ∈ (l2.foldl
        (fun acc elt =>
          let step := ParsedLockList.AddFunc acc.1 elt
          (step.1, acc.2 || step.2)) acc).1 ∧ r.Equal q := by
  intro l2
  induction l2 with
  | nil => intro acc q h; cases h
  | cons e es ih =>
    intro acc q h
    rcases List.mem_cons.mp h with rfl | hmem
    · by_cases hc : acc.1.any (fun x => decide (x.Equal q))
      · obtain ⟨x, hx, hxe⟩ := List.any_eq_true.mp hc
        have hxe2 : x.Equal q := of_decide_eq_true hxe
        refine ⟨x, ?_, hxe2⟩
        exact addListAux_sup es _ x (AddFunc_sup hx)
      · refine ⟨q, ?_, ParsedLock.Equal_refl q⟩
        have hq : q ∈ (acc.1.AddFunc q).1 := by
          unfold ParsedLockList.AddFunc
          rw [if_neg hc]
          exact List.mem_append.mpr (Or.inr (by simp))
        exact addListAux_sup es _ q hq
    · exact ih _ q hmem

theorem AddListFunc_sub {l1 l2 : ParsedLockList} {q : ParsedLock}
    (h : q ∈ (l1.AddListFunc l2).1) : q ∈ l1 ∨ q ∈ l2 := by
  unfold ParsedLockList.AddListFunc at h
  exact addListAux_sub l2 (l1, false) q h

theorem AddListFunc_sup_left {l1 l2 : ParsedLockList} {q : ParsedLock}
    (h : q ∈ l1) : q ∈ (l1.AddListFunc l2).1 := by
  unfold ParsedLockList.AddListFunc
  exact addListAux_sup l2 (l1, false) q h

theorem AddListFunc_covers {l1 l2 : ParsedLockList} {q : ParsedLock}
    (h : q ∈ l2) : ∃ r, r ∈ (l1.AddListFunc l2).1 ∧ r.Equal q := by
  unfold ParsedLockList.AddListFunc
  exact addListAux_covers l2 (l1, false) q h

theorem RemFunc_sub :
    ∀ (l : ParsedLockList) (e q : ParsedLock), q ∈ (l.RemFunc e).1 → q ∈ l := by
  intro l
  induction l with
  | nil => intro e q h; cases h
  | cons x xs ih =>
    intro e q h
    rw [ParsedLockList.RemFunc] at h
    by_cases hc : x.Equal e
    · rw [if_pos hc] at h
      exact List.mem_cons_of_mem _ h
    · rw [if_neg hc] at h
      match hrec : ParsedLockList.RemFunc xs e with
      | (sans, true) =>
        rw [hrec] at h
        rcases List.mem_cons.mp h with rfl | hmem
        · exact List.mem_cons_self _ _
        · exact List.mem_cons_of_mem _ (ih e q (by rw [hrec]; exact hmem))
      | (sans, false) =>
        rw [hrec] at h
        exact h

theorem RemFunc_mem_of_not_equal :
    ∀ (l : ParsedLockList) (e q : ParsedLock), q ∈ l → ¬ q.Equal e →
      q ∈ (l.RemFunc e).1 := by
  intro l
  induction l with
  | nil => intro e q h _; cases h
  | cons x xs ih =>
    intro e q h hne
    rw [ParsedLockList.RemFunc]
    by_cases hc : x.Equal e
    · rw [if_pos hc]
      rcases List.mem_cons.mp h with rfl | hmem
      · exact absurd hc hne
      · exact hmem
    · rw [if_neg hc]
      rcases List.mem_cons.mp h with rfl | hmem
      · match hrec : ParsedLockList.RemFunc xs e with
        | (sans, true) => exact List.mem_cons_self _ _
        | (sans, false) => exact List.mem_cons_self _ _
      · match hrec : ParsedLockList.RemFunc xs e with
        | (sans, true) =>
          have := ih e q hmem hne
          rw [hrec] at this
          exact List.mem_cons_of_mem _ this
        | (sans, false) => exact List.mem_cons_of_mem _ hmem

theorem RemFunc_found :
    ∀ (l : ParsedLockList) (e : ParsedLock), e ∈ l → (l.RemFunc e).2 = true := by
  intro l
  induction l with
  | nil => intro e h; cases h
  | cons x xs ih =>
    intro e he
    rw [ParsedLockList.RemFunc]
    by_cases hc : x.Equal e
    · rw [if_pos hc]
    · rw [if_neg hc]
      rcases List.mem_cons.mp he with rfl | hmem
      · exact absurd (ParsedLock.Equal_refl e) hc
      · have := ih e hmem
        match hrec : ParsedLockList.RemFunc xs e with
        | (sans, true) => rfl
        | (sans, false) =>
          rw [hrec] at this
          cases this

theorem RemFunc_not_mem_kept :
    ∀ (l : ParsedLockList) (e : ParsedLock),
      l.Pairwise (fun p q => p.UID ≠ q.UID) → e ∈ l → e ∉ (l.RemFunc e).1 := by
  intro l
  induction l with
  | nil => intro e _ h; cases h
  | cons x xs ih =>
    intro e hp he
    rw [List.pairwise_cons] at hp
    rw [ParsedLockList.RemFunc]
    by_cases hc : x.Equal e
    · rw [if_pos hc]
      rcases List.mem_cons.mp he with rfl | hmem
      · intro hin
        exact hp.1 e hin rfl
      · intro _
        exact hp.1 e hmem hc.2.1
    · rw [if_neg hc]
      rcases List.mem_cons.mp he with rfl | hmem
      · exact absurd (ParsedLock.Equal_refl e) hc
      · match hrec : ParsedLockList.RemFunc xs e with
        | (sans, true) =>
          intro hin
          rcases List.mem_cons.mp hin with rfl | hmem2
          · exact hc (ParsedLock.Equal_refl e)
          · have := ih e hp.2 hmem
            rw [hrec] at this
            exact this hmem2
        | (sans, false) =>
          have hfound := RemFunc_found xs e hmem
          rw [hrec] at hfound
          cases hfound

theorem foldl_delete_eq_filter :
    ∀ (ps : ParsedLockList) (locks : List IPLock),
      ps.foldl deleteIPLockObject locks =
        locks.filter (fun l => decide (∀ p ∈ ps,
          ¬ (l.ns = p.ns ∧ l.name = p.name ∧ l.uid = p.UID))) := by
  intro ps
  induction ps with
  | nil =>
    intro locks
    have htrue : ∀ l : IPLock, decide (∀ p ∈ ([] : ParsedLockList),
        ¬ (l.ns = p.ns ∧ l.name = p.name ∧ l.uid = p.UID)) = true := by
      intro l
      exact decide_eq_true (fun p hp => absurd hp (List.not_mem_nil p))
    rw [List.foldl_nil, List.filter_eq_self.mpr (fun a _ => htrue a)]
  | cons p ps ih =>
    intro locks
    simp only [List.foldl_cons]
    rw [ih]
    unfold deleteIPLockObject
    rw [List.filter_filter]
    apply List.filter_congr
    intro l _
    simp only [List.forall_mem_cons]
    by_cases hp : (l.ns = p.ns ∧ l.name = p.name ∧ l.uid = p.UID)
    · simp [hp]
    · simp [hp]

theorem mem_foldl_delete {ps : ParsedLockList} {locks : List IPLock} {l : IPLock} :
    l ∈ ps.foldl deleteIPLockObject locks ↔
      l ∈ locks ∧ ∀ p ∈ ps,
        ¬ (l.ns = p.ns ∧ l.name = p.name ∧ l.uid = p.UID) := by
  rw [foldl_delete_eq_filter]
  simp [List.mem_filter]

theorem all_eq_nodup_singleton {α : Type} {l : List α} {x : α}
    (hnd : l.Nodup) (hx : x ∈ l) (hall : ∀ y ∈ l, y = x) : l = [x] := by
  match l, hx with
  | [y], _ =>
    have := hall y (by simp)
    simp [this]
  | y1 :: y2 :: rest, _ =>
    have h1 : y1 = x := hall y1 (by simp)
    have h2 : y2 = x := hall y2 (by simp)
    rw [List.nodup_cons] at hnd
    exact absurd (by simp [h1, h2]) hnd.1

/-- C3 counterexample: a live attachment whose resource version matches
neither remembered version, but whose subnet is missing, returns from
analyzeAndRelease with the anticipation record untouched, although the
claim demands the four fields be zeroed whenever the versions mismatch. -/
theorem C3_counterexample :
    (analyzeAndRelease "ex" "a1"
        (some ⟨"ex", "a1", "uidA", "9", 0, "s1", none, 0, ""⟩) none []
        (some ⟨some 3, "1", "2", "5"⟩)).nadat
      = some ⟨some 3, "1", "2", "5"⟩ ∧
    (⟨some 3, "1", "2", "5"⟩ : NetworkAttachmentData) ≠ zeroNAData ∧
    ("9" : String) ≠ "1" ∧ ("9" : String) ≠ "2" := by
  refine ⟨rfl, by decide, by decide, by decide⟩

/-- C3 amended: when the analysis reaches the anticipation check, that
is, the attachment is gone, or it is live and its subnet was found with
a well-formed CIDR, the four anticipation fields are zeroed exactly when
the attachment is gone, or its resource version equals neither
remembered version, or the observed subnet resource version differs;
when the attachment resource version matches one of the two and the
subnet version matches, the record is unchanged.  On the early-return
paths (missing subnet, malformed CIDR) the record is left untouched. -/
theorem C3_anticipation_zeroing :
    (∀ (ns name : String) (subnet : Option Subnet) (locks : List IPLock)
        (nd : NetworkAttachmentData),
      (analyzeAndRelease ns name none subnet locks (some nd)).nadat
        = some zeroNAData) ∧
    (∀ (ns name : String) (a : NetworkAttachment) (sn : Subnet)
        (b ones : Nat) (locks : List IPLock) (nd : NetworkAttachmentData),
      sn.cidr = some (b, ones) →
      (analyzeAndRelease ns name (some a) (some sn) locks (some nd)).nadat
        = (if (nd.anticipatingResourceVersion ≠ a.resourceVersion ∧
                nd.anticipatedResourceVersion ≠ a.resourceVersion) ∨
              nd.anticipationSubnetRV ≠ sn.resourceVersion
           then some zeroNAData else some nd)) ∧
    (∀ (ns name : String) (a : NetworkAttachment) (locks : List IPLock)
        (nadat : Option NetworkAttachmentData),
      (analyzeAndRelease ns name (some a) none locks nadat).nadat = nadat) := by
  refine ⟨?_, ?_, ?_⟩
  · intro ns name subnet locks nd
    rfl
  · intro ns name a sn b ones locks nd hc
    have hb : anticipationStale (some a) nd sn.resourceVersion = true ↔
        ((nd.anticipatingResourceVersion ≠ a.resourceVersion ∧
          nd.anticipatedResourceVersion ≠ a.resourceVersion) ∨
         nd.anticipationSubnetRV ≠ sn.resourceVersion) := by
      simp [anticipationStale]
    simp only [analyzeAndRelease, hc]
    by_cases hcond : (nd.anticipatingResourceVersion ≠ a.resourceVersion ∧
        nd.anticipatedResourceVersion ≠ a.resourceVersion) ∨
        nd.anticipationSubnetRV ≠ sn.resourceVersion
    · rw [if_pos hcond]
      have hstale : anticipationStale (some a) nd sn.resourceVersion = true :=
        hb.mpr hcond
      simp [analyzeRest, hstale]
    · rw [if_neg hcond]
      have hstale : anticipationStale (some a) nd sn.resourceVersion = false := by
        rw [Bool.eq_false_iff]
        intro hx
        exact hcond (hb.mp hx)
      simp [analyzeRest, hstale]
  · intro ns name a locks nadat
    rfl

/-- Witness for the amended C3: a live attachment whose resource version
matches neither remembered version, with a well-formed subnet, has its
anticipation record zeroed. -/
theorem C3_anticipation_zeroing_witness :
    (analyzeAndRelease "ex" "a1"
        (some ⟨"ex", "a1", "uidA", "9", 0, "s1", none, 0, ""⟩)
        (some ⟨"s1", "7", 5, some (0, 24)⟩) []
        (some ⟨some 3, "1", "2", "7"⟩)).nadat = some zeroNAData := by
  rw [C3_anticipation_zeroing.2.1 "ex" "a1" _ _ 0 24 [] _ rfl]
  rw [if_pos]
  exact Or.inl ⟨by decide, by decide⟩

theorem NewParsedLock_spec {l : IPLock} {p : ParsedLock}
    (h : NewParsedLock l = some p) :
    p.Obj = some l ∧ p.ns = l.ns ∧ p.name = l.name ∧ p.UID = l.uid ∧
    p.CreationTime = l.creationTime ∧
    parseIPLockName l.name = some (p.VNI, p.addrU) := by
  unfold NewParsedLock at h
  match hp : parseIPLockName l.name with
  | none =>
    rw [hp] at h
    cases h
  | some vp =>
    obtain ⟨vni, addrU⟩ := vp
    rw [hp] at h
    injection h with h
    subst h
    refine ⟨rfl, rfl, rfl, rfl, rfl, ?_⟩
    rfl

/-- All three bins of a consider state, as one list. -/
def binsAll (st : ConsiderState) : ParsedLockList :=
  st.timeSlippers ++ st.undesiredLocks ++ st.usableLocks

/-- The invariant of the consider fold for a live attachment: every
binned parsed lock carries its store object; timeSlippers are the locks
with a foreign owner UID; the other two bins hold locks owned by this
attachment UID, split by desired VNI and block; lockInStatus, when set,
is a usable lock matching the status fields; the binned UIDs are
pairwise distinct; and every binned address was recorded as
considered. -/
structure ConsOK (a : NetworkAttachment) (cands : List IPLock)
    (dV dB dL : Nat) (st : ConsiderState) : Prop where
  prov : ∀ p ∈ binsAll st, ∃ l, p.Obj = some l ∧ l ∈ cands ∧
    NewParsedLock l = some p
  slip : ∀ p ∈ st.timeSlippers, ∀ l, p.Obj = some l →
    (GetOwner l.owners "NetworkAttachment").2 ≠ a.uid
  owned : ∀ p ∈ st.undesiredLocks ++ st.usableLocks, ∀ l, p.Obj = some l →
    (GetOwner l.owners "NetworkAttachment").2 = a.uid
  undes : ∀ p ∈ st.undesiredLocks, p.VNI ≠ dV ∨ p.addrU < dB ∨ p.addrU > dL
  usab : ∀ p ∈ st.usableLocks, p.VNI = dV ∧ dB ≤ p.addrU ∧ p.addrU ≤ dL
  lis : st.lockInStatus = zeroParsedLock ∨
    (st.lockInStatus ∈ st.usableLocks ∧
      st.lockInStatus.UID = a.statusLockUID ∧
      a.statusIPv4 = some st.lockInStatus.addrU)
  addrC : ∀ p ∈ binsAll st, p.addrU ∈ st.considered

/-- The binned UIDs are pairwise distinct. -/
def UidsOK (st : ConsiderState) : Prop :=
  (binsAll st).Pairwise (fun p q => p.UID ≠ q.UID)

theorem considerOne_parse_none {att : Option NetworkAttachment}
    {dV dB dL : Nat} {st : ConsiderState} {l : IPLock}
    (h : NewParsedLock l = none) :
    considerOne att dV dB dL st l = st := by
  simp [considerOne, h]

theorem considerOne_slip_eq {a : NetworkAttachment} {dV dB dL : Nat}
    {st : ConsiderState} {l : IPLock} {parsed : ParsedLock}
    (hp : NewParsedLock l = some parsed)
    (hc : (GetOwner l.owners "NetworkAttachment").2 ≠ a.uid) :
    considerOne (some a) dV dB dL st l =
      { st with considered := parsed.addrU :: st.considered,
                timeSlippers := st.timeSlippers ++ [parsed] } := by
  simp [considerOne, hp, hc, ParsedLockList.Append]

theorem considerOne_undes_eq {a : NetworkAttachment} {dV dB dL : Nat}
    {st : ConsiderState} {l : IPLock} {parsed : ParsedLock}
    (hp : NewParsedLock l = some parsed)
    (hc1 : (GetOwner l.owners "NetworkAttachment").2 = a.uid)
    (hc2 : parsed.VNI ≠ dV ∨ parsed.addrU < dB ∨ parsed.addrU > dL) :
    considerOne (some a) dV dB dL st l =
      { st with considered := parsed.addrU :: st.considered,
                undesiredLocks := st.undesiredLocks ++ [parsed] } := by
  simp [considerOne, hp, hc1, hc2, ParsedLockList.Append]

theorem considerOne_usable_status_eq {a : NetworkAttachment} {dV dB dL : Nat}
    {st : ConsiderState} {l : IPLock} {parsed : ParsedLock}
    (hp : NewParsedLock l = some parsed)
    (hc1 : (GetOwner l.owners "NetworkAttachment").2 = a.uid)
    (hc2 : ¬ (parsed.VNI ≠ dV ∨ parsed.addrU < dB ∨ parsed.addrU > dL))
    (hc3 : parsed.UID = a.statusLockUID ∧ a.statusIPv4 ≠ none ∧
      a.statusIPv4 = some parsed.addrU) :
    considerOne (some a) dV dB dL st l =
      { st with considered := parsed.addrU :: st.considered,
                lockInStatus := parsed,
                usableLocks := st.usableLocks ++ [parsed] } := by
  simp [considerOne, hp, hc1, hc2, hc3, ParsedLockList.Append]

theorem considerOne_usable_nostatus_eq {a : NetworkAttachment} {dV dB dL : Nat}
    {st : ConsiderState} {l : IPLock} {parsed : ParsedLock}
    (hp : NewParsedLock l = some parsed)
    (hc1 : (GetOwner l.owners "NetworkAttachment").2 = a.uid)
    (hc2 : ¬ (parsed.VNI ≠ dV ∨ parsed.addrU < dB ∨ parsed.addrU > dL))
    (hc3 : ¬ (parsed.UID = a.statusLockUID ∧ a.statusIPv4 ≠ none ∧
      a.statusIPv4 = some parsed.addrU)) :
    considerOne (some a) dV dB dL st l =
      { st with considered := parsed.addrU :: st.considered,
                usableLocks := st.usableLocks ++ [parsed] } := by
  simp [considerOne, hp, hc1, hc2, hc3, ParsedLockList.Append]

theorem perm_snoc_first {α : Type} (l1 l2 l3 : List α) (x : α) :
    ((l1 ++ [x]) ++ l2 ++ l3).Perm ((l1 ++ l2 ++ l3) ++ [x]) := by
  have h1 : (l1 ++ [x]) ++ l2 ++ l3 = l1 ++ ([x] ++ (l2 ++ l3)) := by
    simp [List.append_assoc]
  have h2 : (l1 ++ l2 ++ l3) ++ [x] = l1 ++ ((l2 ++ l3) ++ [x]) := by
    simp [List.append_assoc]
  rw [h1, h2]
  exact List.Perm.append_left l1 List.perm_append_comm

theorem perm_snoc_second {α : Type} (l1 l2 l3 : List α) (x : α) :
    (l1 ++ (l2 ++ [x]) ++ l3).Perm ((l1 ++ l2 ++ l3) ++ [x]) := by
  have h1 : l1 ++ (l2 ++ [x]) ++ l3 = l1 ++ (l2 ++ ([x] ++ l3)) := by
    simp [List.append_assoc]
  have h2 : (l1 ++ l2 ++ l3) ++ [x] = l1 ++ (l2 ++ (l3 ++ [x])) := by
    simp [List.append_assoc]
  rw [h1, h2]
  exact List.Perm.append_left l1 (List.Perm.append_left l2 List.perm_append_comm)

theorem perm_snoc_third {α : Type} (l1 l2 l3 : List α) (x : α) :
    (l1 ++ l2 ++ (l3 ++ [x])).Perm ((l1 ++ l2 ++ l3) ++ [x]) := by
  have h1 : l1 ++ l2 ++ (l3 ++ [x]) = (l1 ++ l2 ++ l3) ++ [x] := by
    simp [List.append_assoc]
  rw [h1]

theorem pairwise_uid_snoc {L Lnew : ParsedLockList} {x : ParsedLock}
    (hperm : Lnew.Perm (L ++ [x]))
    (h : L.Pairwise (fun p q => p.UID ≠ q.UID))
    (hf : ∀ p ∈ L, p.UID ≠ x.UID) :
    Lnew.Pairwise (fun p q => p.UID ≠ q.UID) := by
  have hsymm : Symmetric (fun p q : ParsedLock => p.UID ≠ q.UID) := by
    intro p q hpq
    exact fun he => hpq he.symm
  have htarget : (L ++ [x]).Pairwise (fun p q => p.UID ≠ q.UID) := by
    rw [List.pairwise_append]
    refine ⟨h, List.pairwise_singleton _ _, ?_⟩
    intro p hp y hy
    rcases List.mem_singleton.mp hy with rfl
    exact hf p hp
  exact ((hperm.pairwise_iff (fun hab he => hab he.symm)).mpr htarget)

theorem considerOne_ok {a : NetworkAttachment} {cands : List IPLock}
    {dV dB dL : Nat} {st : ConsiderState} {l : IPLock}
    (hok : ConsOK a cands dV dB dL st) (hl : l ∈ cands) :
    ConsOK a cands dV dB dL (considerOne (some a) dV dB dL st l) := by
  match hparse : NewParsedLock l with
  | none =>
    rw [considerOne_parse_none hparse]
    exact hok
  | some parsed =>
    obtain ⟨hObj, hNs, hName, hUID, hCT, hParse⟩ := NewParsedLock_spec hparse
    by_cases hc : (GetOwner l.owners "NetworkAttachment").2 ≠ a.uid
    · rw [considerOne_slip_eq hparse hc]
      refine ⟨?_, ?_, ?_, ?_, ?_, ?_, ?_⟩
      · intro p hp
        simp only [binsAll, List.append_assoc, List.mem_append,
          List.mem_singleton] at hp
        rcases hp with hp | rfl | hp | hp
        · exact hok.prov p (by simp [binsAll, hp])
        · exact ⟨l, hObj, hl, hparse⟩
        · exact hok.prov p (by simp [binsAll, hp])
        · exact hok.prov p (by simp [binsAll, hp])
      · intro p hp l2 hpl2
        simp only [List.mem_append, List.mem_singleton] at hp
        rcases hp with hp | rfl
        · exact hok.slip p hp l2 hpl2
        · rw [hObj] at hpl2
          injection hpl2 with hpl2
          subst hpl2
          exact hc
      · intro p hp l2 hpl2
        exact hok.owned p hp l2 hpl2
      · exact hok.undes
      · exact hok.usab
      · exact hok.lis
      · intro p hp
        simp only [binsAll, List.append_assoc, List.mem_append,
          List.mem_singleton] at hp
        rcases hp with hp | rfl | hp | hp
        · exact List.mem_cons_of_mem _ (hok.addrC p (by simp [binsAll, hp]))
        · exact List.mem_cons_self _ _
        · exact List.mem_cons_of_mem _ (hok.addrC p (by simp [binsAll, hp]))
        · exact List.mem_cons_of_mem _ (hok.addrC p (by simp [binsAll, hp]))
    · have hc1 : (GetOwner l.owners "NetworkAttachment").2 = a.uid :=
        not_not.mp hc
      by_cases hc2 : parsed.VNI ≠ dV ∨ parsed.addrU < dB ∨ parsed.addrU > dL
      · rw [considerOne_undes_eq hparse hc1 hc2]
        refine ⟨?_, ?_, ?_, ?_, ?_, ?_, ?_⟩
        · intro p hp
          simp only [binsAll, List.append_assoc, List.mem_append,
            List.mem_singleton] at hp
          rcases hp with hp | hp | rfl | hp
          · exact hok.prov p (by simp [binsAll, hp])
          · exact hok.prov p (by simp [binsAll, hp])
          · exact ⟨l, hObj, hl, hparse⟩
          · exact hok.prov p (by simp [binsAll, hp])
        · exact hok.slip
        · intro p hp l2 hpl2
          simp only [List.append_assoc, List.mem_append,
            List.mem_singleton] at hp
          rcases hp with hp | rfl | hp
          · exact hok.owned p (by simp [hp]) l2 hpl2
          · rw [hObj] at hpl2
            injection hpl2 with hpl2
            subst hpl2
            exact hc1
          · exact hok.owned p (by simp [hp]) l2 hpl2
        · intro p hp
          rcases List.mem_append.mp hp with hp | hp
          · exact hok.undes p hp
          · rcases List.mem_singleton.mp hp with rfl
            exact hc2
        · exact hok.usab
        · rcases hok.lis with h0 | ⟨hmem, hrest⟩
          · exact Or.inl h0
          · exact Or.inr ⟨hmem, hrest⟩
        · intro p hp
          simp only [binsAll, List.append_assoc, List.mem_append,
            List.mem_singleton] at hp
          rcases hp with hp | hp | rfl | hp
          · exact List.mem_cons_of_mem _ (hok.addrC p (by simp [binsAll, hp]))
          · exact List.mem_cons_of_mem _ (hok.addrC p (by simp [binsAll, hp]))
          · exact List.mem_cons_self _ _
          · exact List.mem_cons_of_mem _ (hok.addrC p (by simp [binsAll, hp]))
      · have hc2p : parsed.VNI = dV ∧ dB ≤ parsed.addrU ∧ parsed.addrU ≤ dL := by
          push_neg at hc2
          exact ⟨hc2.1, hc2.2.1, hc2.2.2⟩
        have husab : ∀ p ∈ st.usableLocks ++ [parsed],
            p.VNI = dV ∧ dB ≤ p.addrU ∧ p.addrU ≤ dL := by
          intro p hp
          rcases List.mem_append.mp hp with hp | hp
          · exact hok.usab p hp
          · rcases List.mem_singleton.mp hp with rfl
            exact hc2p
        have hprov : ∀ p ∈ binsAll st ++ [parsed],
            ∃ l2, p.Obj = some l2 ∧ l2 ∈ cands ∧ NewParsedLock l2 = some p := by
          intro p hp
          rcases List.mem_append.mp hp with hp | hp
          · exact hok.prov p hp
          · rcases List.mem_singleton.mp hp with rfl
            exact ⟨l, hObj, hl, hparse⟩
        have howned : ∀ p ∈ st.undesiredLocks ++ (st.usableLocks ++ [parsed]),
            ∀ l2, p.Obj = some l2 →
            (GetOwner l2.owners "NetworkAttachment").2 = a.uid := by
          intro p hp l2 hpl2
          simp only [List.mem_append, List.mem_singleton] at hp
          rcases hp with hp | hp | rfl
          · exact hok.owned p (by simp [hp]) l2 hpl2
          · exact hok.owned p (by simp [hp]) l2 hpl2
          · rw [hObj] at hpl2
            injection hpl2 with hpl2
            subst hpl2
            exact hc1
        have haddr : ∀ p ∈ binsAll st ++ [parsed],
            p.addrU ∈ parsed.addrU :: st.considered := by
          intro p hp
          rcases List.mem_append.mp hp with hp | hp
          · exact List.mem_cons_of_mem _ (hok.addrC p hp)
          · rcases List.mem_singleton.mp hp with rfl
            exact List.mem_cons_self _ _
        by_cases hc3 : parsed.UID = a.statusLockUID ∧ a.statusIPv4 ≠ none ∧
            a.statusIPv4 = some parsed.addrU
        · rw [considerOne_usable_status_eq hparse hc1 hc2 hc3]
          refine ⟨?_, ?_, ?_, ?_, ?_, ?_, ?_⟩
          · intro p hp
            refine hprov p ?_
            simp only [binsAll, List.append_assoc, List.mem_append,
              List.mem_singleton] at hp ⊢
            tauto
          · exact hok.slip
          · exact howned
          · exact hok.undes
          · exact husab
          · exact Or.inr ⟨List.mem_append.mpr (Or.inr (by simp)),
              hc3.1, hc3.2.2⟩
          · intro p hp
            refine haddr p ?_
            simp only [binsAll, List.append_assoc, List.mem_append,
              List.mem_singleton] at hp ⊢
            tauto
        · rw [considerOne_usable_nostatus_eq hparse hc1 hc2 hc3]
          refine ⟨?_, ?_, ?_, ?_, ?_, ?_, ?_⟩
          · intro p hp
            refine hprov p ?_
            simp only [binsAll, List.append_assoc, List.mem_append,
              List.mem_singleton] at hp ⊢
            tauto
          · exact hok.slip
          · exact howned
          · exact hok.undes
          · exact husab
          · rcases hok.lis with h0 | ⟨hmem, hrest⟩
            · exact Or.inl h0
            · exact Or.inr ⟨List.mem_append.mpr (Or.inl hmem), hrest⟩
          · intro p hp
            refine haddr p ?_
            simp only [binsAll, List.append_assoc, List.mem_append,
              List.mem_singleton] at hp ⊢
            tauto

theorem considerOne_cases (a : NetworkAttachment) (dV dB dL : Nat)
    (st : ConsiderState) (l : IPLock) :
    (NewParsedLock l = none ∧ considerOne (some a) dV dB dL st l = st) ∨
    ∃ parsed, NewParsedLock l = some parsed ∧
      (considerOne (some a) dV dB dL st l =
        { st with considered := parsed.addrU :: st.considered,
                  timeSlippers := st.timeSlippers ++ [parsed] } ∨
       considerOne (some a) dV dB dL st l =
        { st with considered := parsed.addrU :: st.considered,
                  undesiredLocks := st.undesiredLocks ++ [parsed] } ∨
       considerOne (some a) dV dB dL st l =
        { st with considered := parsed.addrU :: st.considered,
                  lockInStatus := parsed,
                  usableLocks := st.usableLocks ++ [parsed] } ∨
       considerOne (some a) dV dB dL st l =
        { st with considered := parsed.addrU :: st.considered,
                  usableLocks := st.usableLocks ++ [parsed] }) := by
  match hparse : NewParsedLock l with
  | none => exact Or.inl ⟨rfl, considerOne_parse_none hparse⟩
  | some parsed =>
    refine Or.inr ⟨parsed, rfl, ?_⟩
    by_cases hc : (GetOwner l.owners "NetworkAttachment").2 ≠ a.uid
    · exact Or.inl (considerOne_slip_eq hparse hc)
    · have hc1 := not_not.mp hc
      by_cases hc2 : parsed.VNI ≠ dV ∨ parsed.addrU < dB ∨ parsed.addrU > dL
      · exact Or.inr (Or.inl (considerOne_undes_eq hparse hc1 hc2))
      · by_cases hc3 : parsed.UID = a.statusLockUID ∧ a.statusIPv4 ≠ none ∧
            a.statusIPv4 = some parsed.addrU
        · exact Or.inr (Or.inr (Or.inl
            (considerOne_usable_status_eq hparse hc1 hc2 hc3)))
        · exact Or.inr (Or.inr (Or.inr
            (considerOne_usable_nostatus_eq hparse hc1 hc2 hc3)))

theorem considerOne_mem {a : NetworkAttachment} {dV dB dL : Nat}
    {st : ConsiderState} {l : IPLock} {parsed : ParsedLock}
    (hparse : NewParsedLock l = some parsed) :
    parsed ∈ binsAll (considerOne (some a) dV dB dL st l) := by
  rcases considerOne_cases a dV dB dL st l with ⟨hn, _⟩ | ⟨p2, hp2, hcase⟩
  · rw [hparse] at hn
    cases hn
  · rw [hparse] at hp2
    injection hp2 with hp2
    subst hp2
    rcases hcase with he | he | he | he <;> rw [he] <;> simp [binsAll]

theorem considerOne_bins_sub {a : NetworkAttachment} {dV dB dL : Nat}
    {st : ConsiderState} {l : IPLock} {p : ParsedLock}
    (h : p ∈ binsAll (considerOne (some a) dV dB dL st l)) :
    p ∈ binsAll st ∨ NewParsedLock l = some p := by
  rcases considerOne_cases a dV dB dL st l with ⟨_, he⟩ | ⟨p2, hp2, hcase⟩
  · rw [he] at h
    exact Or.inl h
  · rcases hcase with he | he | he | he <;> rw [he] at h <;>
      simp only [binsAll, List.append_assoc, List.mem_append,
        List.mem_singleton] at h <;> simp only [binsAll, List.append_assoc,
        List.mem_append]
    · rcases h with h | h | h | h
      · exact Or.inl (Or.inl h)
      · subst h
        exact Or.inr hp2
      · exact Or.inl (Or.inr (Or.inl h))
      · exact Or.inl (Or.inr (Or.inr h))
    · rcases h with h | h | h | h
      · exact Or.inl (Or.inl h)
      · exact Or.inl (Or.inr (Or.inl h))
      · subst h
        exact Or.inr hp2
      · exact Or.inl (Or.inr (Or.inr h))
    · rcases h with h | h | h | h
      · exact Or.inl (Or.inl h)
      · exact Or.inl (Or.inr (Or.inl h))
      · exact Or.inl (Or.inr (Or.inr h))
      · subst h
        exact Or.inr hp2
    · rcases h with h | h | h | h
      · exact Or.inl (Or.inl h)
      · exact Or.inl (Or.inr (Or.inl h))
      · exact Or.inl (Or.inr (Or.inr h))
      · subst h
        exact Or.inr hp2

theorem considerOne_bins_sup {a : NetworkAttachment} {dV dB dL : Nat}
    {st : ConsiderState} {l : IPLock} {p : ParsedLock}
    (h : p ∈ binsAll st) :
    p ∈ binsAll (considerOne (some a) dV dB dL st l) := by
  rcases considerOne_cases a dV dB dL st l with ⟨_, he⟩ | ⟨p2, _, hcase⟩
  · rw [he]
    exact h
  · simp only [binsAll, List.append_assoc, List.mem_append] at h
    rcases hcase with he | he | he | he <;> rw [he] <;>
      simp only [binsAll, List.append_assoc, List.mem_append,
        List.mem_singleton] <;> tauto

theorem considerOne_considered_sup {a : NetworkAttachment} {dV dB dL : Nat}
    {st : ConsiderState} {l : IPLock} {u : Nat}
    (h : u ∈ st.considered) :
    u ∈ (considerOne (some a) dV dB dL st l).considered := by
  rcases considerOne_cases a dV dB dL st l with ⟨_, he⟩ | ⟨p2, _, hcase⟩
  · rw [he]
    exact h
  · rcases hcase with he | he | he | he <;> rw [he] <;>
      exact List.mem_cons_of_mem _ h

theorem considerOne_uids {a : NetworkAttachment} {dV dB dL : Nat}
    {st : ConsiderState} {l : IPLock}
    (hu : UidsOK st)
    (hfresh : ∀ p ∈ binsAll st, p.UID ≠ l.uid) :
    UidsOK (considerOne (some a) dV dB dL st l) := by
  rcases considerOne_cases a dV dB dL st l with ⟨_, he⟩ | ⟨parsed, hparse, hcase⟩
  · rw [he]
    exact hu
  · obtain ⟨hObj, hNs, hName, hUID, hCT, hParse⟩ := NewParsedLock_spec hparse
    have hfresh2 : ∀ p ∈ binsAll st, p.UID ≠ parsed.UID := by
      intro p hp
      rw [hUID]
      exact hfresh p hp
    rcases hcase with he | he | he | he <;> rw [he]
    · exact pairwise_uid_snoc
        (perm_snoc_first st.timeSlippers st.undesiredLocks st.usableLocks parsed)
        hu hfresh2
    · exact pairwise_uid_snoc
        (perm_snoc_second st.timeSlippers st.undesiredLocks st.usableLocks parsed)
        hu hfresh2
    · exact pairwise_uid_snoc
        (perm_snoc_third st.timeSlippers st.undesiredLocks st.usableLocks parsed)
        hu hfresh2
    · exact pairwise_uid_snoc
        (perm_snoc_third st.timeSlippers st.undesiredLocks st.usableLocks parsed)
        hu hfresh2

theorem considerFold_core {a : NetworkAttachment} {cands : List IPLock}
    {dV dB dL : Nat} :
    ∀ (ls : List IPLock) (st : ConsiderState),
      ConsOK a cands dV dB dL st →
      (∀ l ∈ ls, l ∈ cands) →
      ConsOK a cands dV dB dL (ls.foldl (considerOne (some a) dV dB dL) st) := by
  intro ls
  induction ls with
  | nil => intro st hok _; exact hok
  | cons l ls ih =>
    intro st hok hsub
    rw [List.foldl_cons]
    exact ih _ (considerOne_ok hok (hsub l (by simp)))
      (fun l2 hl2 => hsub l2 (by simp [hl2]))

theorem considerFold_uids {a : NetworkAttachment} {dV dB dL : Nat} :
    ∀ (ls : List IPLock) (st : ConsiderState),
      UidsOK st →
      (∀ l ∈ ls, ∀ p ∈ binsAll st, p.UID ≠ l.uid) →
      ls.Pairwise (fun l1 l2 => l1.uid ≠ l2.uid) →
      UidsOK (ls.foldl (considerOne (some a) dV dB dL) st) := by
  intro ls
  induction ls with
  | nil => intro st hu _ _; exact hu
  | cons l ls ih =>
    intro st hu hfresh hpw
    rw [List.foldl_cons]
    rw [List.pairwise_cons] at hpw
    refine ih _ (considerOne_uids hu (hfresh l (by simp))) ?_ hpw.2
    intro l2 hl2 p hp
    rcases considerOne_bins_sub hp with hold | hnew
    · exact hfresh l2 (by simp [hl2]) p hold
    · have := (NewParsedLock_spec hnew).2.2.2.1
      rw [this]
      exact hpw.1 l2 hl2

theorem considerFold_bins_sup {a : NetworkAttachment} {dV dB dL : Nat} :
    ∀ (ls : List IPLock) (st : ConsiderState) (p : ParsedLock),
      p ∈ binsAll st →
      p ∈ binsAll (ls.foldl (considerOne (some a) dV dB dL) st) := by
  intro ls
  induction ls with
  | nil => intro st p h; exact h
  | cons l ls ih =>
    intro st p h
    rw [List.foldl_cons]
    exact ih _ p (considerOne_bins_sup h)

theorem considerFold_complete {a : NetworkAttachment} {dV dB dL : Nat} :
    ∀ (ls : List IPLock) (st : ConsiderState) (l : IPLock) (parsed : ParsedLock),
      l ∈ ls → NewParsedLock l = some parsed →
      parsed ∈ binsAll (ls.foldl (considerOne (some a) dV dB dL) st) := by
  intro ls
  induction ls with
  | nil => intro st l parsed h _; cases h
  | cons l2 ls ih =>
    intro st l parsed hmem hparse
    rw [List.foldl_cons]
    rcases List.mem_cons.mp hmem with rfl | hmem2
    · exact considerFold_bins_sup ls _ parsed (considerOne_mem hparse)
    · exact ih _ l parsed hmem2 hparse

theorem storeGetLock_spec {locks : List IPLock} {ns : String} {nm : List Char}
    {l2 : IPLock} (h : storeGetLock locks ns nm = some l2) :
    l2 ∈ locks ∧ l2.ns = ns ∧ l2.name = nm := by
  unfold storeGetLock at h
  have hmem := List.mem_of_find?_eq_some h
  have hpred := List.find?_some h
  simp only [decide_eq_true_eq] at hpred
  exact ⟨hmem, hpred.1, hpred.2⟩

theorem emptyConsiderState_ok (a : NetworkAttachment) (cands : List IPLock)
    (dV dB dL : Nat) : ConsOK a cands dV dB dL emptyConsiderState := by
  refine ⟨?_, ?_, ?_, ?_, ?_, Or.inl rfl, ?_⟩ <;>
    intro p hp <;> simp [binsAll, emptyConsiderState] at hp

theorem emptyConsiderState_uids : UidsOK emptyConsiderState :=
  List.Pairwise.nil

theorem Uint32ToIPv4_octets (u : Nat) :
    (Uint32ToIPv4 u).a < 256 ∧ (Uint32ToIPv4 u).b < 256 ∧
    (Uint32ToIPv4 u).c < 256 ∧ (Uint32ToIPv4 u).d < 256 := by
  unfold Uint32ToIPv4
  exact ⟨Nat.mod_lt _ (by decide), Nat.mod_lt _ (by decide),
    Nat.mod_lt _ (by decide), Nat.mod_lt _ (by decide)⟩

theorem IPv4ToUint32_Uint32ToIPv4 (u : Nat) (h : u < 2 ^ 32) :
    IPv4ToUint32 (Uint32ToIPv4 u) = u := by
  unfold IPv4ToUint32 Uint32ToIPv4
  simp only []
  omega

theorem parse_make_name (v u : Nat) (hv : v < 2 ^ 21) (hu : u < 2 ^ 32) :
    parseIPLockName (makeIPLockName2 v (Uint32ToIPv4 u)) = some (v, u) := by
  obtain ⟨ha, hb, hc, hd⟩ := Uint32ToIPv4_octets u
  rw [parseIPLockName, splitD_makeIPLockName2]
  simp only [goParseUint_natToDec v 21 hv,
    goParseUint_natToDec (Uint32ToIPv4 u).a 8 ha,
    goParseUint_natToDec (Uint32ToIPv4 u).b 8 hb,
    goParseUint_natToDec (Uint32ToIPv4 u).c 8 hc,
    goParseUint_natToDec (Uint32ToIPv4 u).d 8 hd]
  have hpack := IPv4ToUint32_Uint32ToIPv4 u hu
  unfold IPv4ToUint32 at hpack
  simp [hpack]

theorem considerStage_cases (ns name : String) (a : NetworkAttachment)
    (dV dB dL : Nat) (locks : List IPLock) :
    (considerStage ns name (some a) dV dB dL locks =
      (ownedIndex locks name).foldl (considerOne (some a) dV dB dL)
        emptyConsiderState) ∨
    (∃ u l2, a.statusIPv4 = some u ∧
      u ∉ ((ownedIndex locks name).foldl (considerOne (some a) dV dB dL)
        emptyConsiderState).considered ∧
      storeGetLock locks ns (makeIPLockName2 dV (Uint32ToIPv4 u)) = some l2 ∧
      (GetOwner l2.owners "NetworkAttachment").1 = name ∧
      considerStage ns name (some a) dV dB dL locks =
        considerOne (some a) dV dB dL
          ((ownedIndex locks name).foldl (considerOne (some a) dV dB dL)
            emptyConsiderState) l2) := by
  have hred : considerStage ns name (some a) dV dB dL locks =
      (match a.statusIPv4 with
       | some u =>
         if u ∈ ((ownedIndex locks name).foldl (considerOne (some a) dV dB dL)
             emptyConsiderState).considered then
           (ownedIndex locks name).foldl (considerOne (some a) dV dB dL)
             emptyConsiderState
         else
           match storeGetLock locks ns (makeIPLockName2 dV (Uint32ToIPv4 u)) with
           | some ipl =>
             if (GetOwner ipl.owners "NetworkAttachment").1 = name then
               considerOne (some a) dV dB dL
                 ((ownedIndex locks name).foldl (considerOne (some a) dV dB dL)
                   emptyConsiderState) ipl
             else
               (ownedIndex locks name).foldl (considerOne (some a) dV dB dL)
                 emptyConsiderState
           | none =>
             (ownedIndex locks name).foldl (considerOne (some a) dV dB dL)
               emptyConsiderState
       | none =>
         (ownedIndex locks name).foldl (considerOne (some a) dV dB dL)
           emptyConsiderState) := rfl
  rw [hred]
  cases hsip : a.statusIPv4 with
  | none => exact Or.inl rfl
  | some u =>
    dsimp only
    by_cases hin : u ∈ ((ownedIndex locks name).foldl
        (considerOne (some a) dV dB dL) emptyConsiderState).considered
    · rw [if_pos hin]
      exact Or.inl rfl
    · rw [if_neg hin]
      cases hget : storeGetLock locks ns (makeIPLockName2 dV (Uint32ToIPv4 u)) with
      | none => exact Or.inl rfl
      | some l2 =>
        dsimp only
        by_cases hown : (GetOwner l2.owners "NetworkAttachment").1 = name
        · rw [if_pos hown]
          exact Or.inr ⟨u, l2, rfl, hin, hget, hown, rfl⟩
        · rw [if_neg hown]
          exact Or.inl rfl

theorem considerStage_core {ns name : String} {a : NetworkAttachment}
    {dV dB dL : Nat} {locks : List IPLock} :
    ConsOK a locks dV dB dL (considerStage ns name (some a) dV dB dL locks) := by
  have hst1 : ConsOK a locks dV dB dL
      ((ownedIndex locks name).foldl (considerOne (some a) dV dB dL)
        emptyConsiderState) :=
    considerFold_core _ _ (emptyConsiderState_ok a locks dV dB dL)
      (fun l hl => List.mem_of_mem_filter hl)
  rcases considerStage_cases ns name a dV dB dL locks with
    he | ⟨u, l2, _, _, hget, _, he⟩
  · rw [he]
    exact hst1
  · rw [he]
    exact considerOne_ok hst1 (storeGetLock_spec hget).1

theorem considerStage_complete {ns name : String} {a : NetworkAttachment}
    {dV dB dL : Nat} {locks : List IPLock} :
    ∀ l ∈ ownedIndex locks name, ∀ parsed, NewParsedLock l = some parsed →
      parsed ∈ binsAll (considerStage ns name (some a) dV dB dL locks) := by
  intro l hl parsed hparse
  have h1 : parsed ∈ binsAll ((ownedIndex locks name).foldl
      (considerOne (some a) dV dB dL) emptyConsiderState) :=
    considerFold_complete _ _ l parsed hl hparse
  rcases considerStage_cases ns name a dV dB dL locks with
    he | ⟨u, l2, _, _, _, _, he⟩
  · rw [he]
    exact h1
  · rw [he]
    exact considerOne_bins_sup h1

theorem pairwise_uid_locks_ne {locks : List IPLock}
    (hpw : locks.Pairwise (fun l1 l2 => l1.uid ≠ l2.uid))
    {x y : IPLock} (hx : x ∈ locks) (hy : y ∈ locks) (hne : x ≠ y) :
    x.uid ≠ y.uid := by
  have hsym : Symmetric (fun l1 l2 : IPLock => l1.uid ≠ l2.uid) :=
    fun _ _ h he => h he.symm
  exact List.Pairwise.forall hsym hpw hx hy hne

theorem considerStage_uids {ns name : String} {a : NetworkAttachment}
    {dV dB dL : Nat} {locks : List IPLock}
    (hpw : locks.Pairwise (fun l1 l2 => l1.uid ≠ l2.uid))
    (hdv : dV < 2 ^ 21)
    (hu32 : ∀ u, a.statusIPv4 = some u → u < 2 ^ 32) :
    UidsOK (considerStage ns name (some a) dV dB dL locks) := by
  have hst1 : ConsOK a locks dV dB dL
      ((ownedIndex locks name).foldl (considerOne (some a) dV dB dL)
        emptyConsiderState) :=
    considerFold_core _ _ (emptyConsiderState_ok a locks dV dB dL)
      (fun l hl => List.mem_of_mem_filter hl)
  have hst1u : UidsOK ((ownedIndex locks name).foldl
      (considerOne (some a) dV dB dL) emptyConsiderState) := by
    refine considerFold_uids _ _ emptyConsiderState_uids ?_ ?_
    · intro l _ p hp
      simp [binsAll, emptyConsiderState] at hp
    · exact List.Pairwise.sublist (List.filter_sublist _) hpw
  rcases considerStage_cases ns name a dV dB dL locks with
    he | ⟨u, l2, hsip, hin, hget, _, he⟩
  · rw [he]
    exact hst1u
  · rw [he]
    refine considerOne_uids hst1u ?_
    intro p hp heq
    obtain ⟨lp, hObj, hlp, hparse⟩ := hst1.prov p hp
    obtain ⟨_, _, _, hUID, _, hParse⟩ := NewParsedLock_spec hparse
    obtain ⟨hl2mem, hl2ns, hl2name⟩ := storeGetLock_spec hget
    by_cases hsame : lp = l2
    · subst hsame
      have hu : u < 2 ^ 32 := hu32 u hsip
      have hant : parseIPLockName lp.name = some (dV, u) := by
        rw [hl2name]
        exact parse_make_name dV u hdv hu
      rw [hant] at hParse
      injection hParse with hParse
      have haddr : p.addrU = u := (Prod.mk.injEq _ _ _ _).mp hParse.symm |>.2
      exact hin (haddr ▸ hst1.addrC p hp)
    · have := pairwise_uid_locks_ne hpw hlp hl2mem hsame
      rw [← hUID] at this
      exact this heq

theorem releaseChoice_sub {att : Option NetworkAttachment}
    {st2 : ConsiderState} {q : ParsedLock}
    (h : q ∈ (releaseChoice att st2).2) : q ∈ st2.usableLocks := by
  unfold releaseChoice at h
  match att with
  | none => exact h
  | some a =>
    by_cases h1 : st2.lockInStatus.Obj ≠ none
    · rw [if_pos h1] at h
      exact RemFunc_sub _ _ q h
    · rw [if_neg h1] at h
      by_cases h2 : st2.usableLocks.length > 0
      · rw [if_pos h2] at h
        exact RemFunc_sub _ _ q h
      · rw [if_neg h2] at h
        cases h

theorem analyzeRest_released (ns name : String) (att : Option NetworkAttachment)
    (subnetRV : String) (dV dB dL : Nat) (locks : List IPLock)
    (nadat : Option NetworkAttachmentData) :
    (analyzeRest ns name att subnetRV dV dB dL locks nadat).released =
      ((considerStage ns name att dV dB dL locks).undesiredLocks.AddListFunc
        (releaseChoice att (considerStage ns name att dV dB dL locks)).2).1 := rfl

theorem analyzeRest_locks (ns name : String) (att : Option NetworkAttachment)
    (subnetRV : String) (dV dB dL : Nat) (locks : List IPLock)
    (nadat : Option NetworkAttachmentData) :
    (analyzeRest ns name att subnetRV dV dB dL locks nadat).locks =
      ((considerStage ns name att dV dB dL locks).undesiredLocks.AddListFunc
        (releaseChoice att (considerStage ns name att dV dB dL locks)).2).1.foldl
        deleteIPLockObject locks := rfl

theorem analyzeRest_lockInStatus (ns name : String)
    (att : Option NetworkAttachment) (subnetRV : String) (dV dB dL : Nat)
    (locks : List IPLock) (nadat : Option NetworkAttachmentData) :
    (analyzeRest ns name att subnetRV dV dB dL locks nadat).lockInStatus =
      (considerStage ns name att dV dB dL locks).lockInStatus := rfl

theorem analyzeRest_lockForStatus (ns name : String)
    (att : Option NetworkAttachment) (subnetRV : String) (dV dB dL : Nat)
    (locks : List IPLock) (nadat : Option NetworkAttachmentData) :
    (analyzeRest ns name att subnetRV dV dB dL locks nadat).lockForStatus =
      (releaseChoice att (considerStage ns name att dV dB dL locks)).1 := rfl

theorem released_spec {ns name : String} {a : NetworkAttachment}
    {subnetRV : String} {dV dB dL : Nat} {locks : List IPLock}
    {nadat : Option NetworkAttachmentData} :
    ∀ p ∈ (analyzeRest ns name (some a) subnetRV dV dB dL locks nadat).released,
      ∃ lp, p.Obj = some lp ∧ lp ∈ locks ∧ NewParsedLock lp = some p ∧
        (GetOwner lp.owners "NetworkAttachment").2 = a.uid := by
  intro p hp
  rw [analyzeRest_released] at hp
  have hcore : ConsOK a locks dV dB dL
      (considerStage ns name (some a) dV dB dL locks) := considerStage_core
  have hbin : p ∈ (considerStage ns name (some a) dV dB dL locks).undesiredLocks ++
      (considerStage ns name (some a) dV dB dL locks).usableLocks := by
    rcases AddListFunc_sub hp with h | h
    · exact List.mem_append.mpr (Or.inl h)
    · exact List.mem_append.mpr (Or.inr (releaseChoice_sub h))
  have hbinsAll : p ∈ binsAll (considerStage ns name (some a) dV dB dL locks) := by
    simp only [binsAll, List.append_assoc, List.mem_append]
    rcases List.mem_append.mp hbin with h | h
    · exact Or.inr (Or.inl h)
    · exact Or.inr (Or.inr h)
  obtain ⟨lp, hO, hlp, hparse⟩ := hcore.prov p hbinsAll
  exact ⟨lp, hO, hlp, hparse, hcore.owned p hbin lp hO⟩

/-- C5: on a reconciliation of an existing attachment, a lock whose
controller owner UID differs from the attachment UID (a timeSlipper) is
never in the release set of analyzeAndRelease and survives in the
store, regardless of its VNI and address. -/
theorem C5_timeSlippers_not_released :
    ∀ (ns name : String) (a : NetworkAttachment) (subnet : Option Subnet)
      (locks : List IPLock) (nadat : Option NetworkAttachmentData) (l : IPLock),
      locks.Pairwise (fun l1 l2 => l1.uid ≠ l2.uid) →
      l ∈ locks →
      name ∈ OwningAttachments l.owners →
      (GetOwner l.owners "NetworkAttachment").2 ≠ a.uid →
      (∀ p ∈ (analyzeAndRelease ns name (some a) subnet locks nadat).released,
        p.Obj ≠ some l) ∧
      l ∈ (analyzeAndRelease ns name (some a) subnet locks nadat).locks := by
  intro ns name a subnet locks nadat l hpw hl hidx hslip
  match subnet with
  | none =>
    constructor
    · intro p hp
      simp [analyzeAndRelease] at hp
    · simpa [analyzeAndRelease] using hl
  | some sn =>
    match hc : sn.cidr with
    | none =>
      constructor
      · intro p hp
        simp [analyzeAndRelease, hc] at hp
      · simpa [analyzeAndRelease, hc] using hl
    | some bo =>
      obtain ⟨b, ones⟩ := bo
      have heq : analyzeAndRelease ns name (some a) (some sn) locks nadat =
          analyzeRest ns name (some a) sn.resourceVersion sn.VNI
            (IPNetToBoundsU b ones).1 (IPNetToBoundsU b ones).2 locks nadat := by
        simp [analyzeAndRelease, hc]
      rw [heq]
      have hrel := @released_spec ns name a sn.resourceVersion sn.VNI
        (IPNetToBoundsU b ones).1 (IPNetToBoundsU b ones).2 locks nadat
      constructor
      · intro p hp hobj
        obtain ⟨lp, hO, _, _, howned⟩ := hrel p hp
        rw [hobj] at hO
        injection hO with hO
        subst hO
        exact hslip howned
      · rw [analyzeRest_locks]
        refine mem_foldl_delete.mpr ⟨hl, ?_⟩
        intro p hp hmatch
        have hp2 : p ∈ (analyzeRest ns name (some a) sn.resourceVersion sn.VNI
            (IPNetToBoundsU b ones).1 (IPNetToBoundsU b ones).2 locks
            nadat).released := by
          rw [analyzeRest_released]
          exact hp
        obtain ⟨lp, hO, hlpmem, hparse, howned⟩ := hrel p hp2
        have hUID : p.UID = lp.uid := (NewParsedLock_spec hparse).2.2.2.1
        by_cases hsame : lp = l
        · subst hsame
          exact hslip howned
        · exact pairwise_uid_locks_ne hpw hlpmem hl hsame
            (by rw [← hUID, ← hmatch.2.2])

/-- Witness for C5: a lock held by an older edition of the attachment
(owner UID uidOld, current UID uidA) is not released and survives. -/
theorem C5_timeSlippers_not_released_witness :
    (∀ p ∈ (analyzeAndRelease "ex" "a1"
        (some ⟨"ex", "a1", "uidA", "1", 0, "s1", none, 0, ""⟩) none
        [⟨"ex", ['v'], "uidOld", 0,
          [⟨"NetworkAttachment", "a1", "uidOld", some true⟩], "s1"⟩]
        none).released,
      p.Obj ≠ some ⟨"ex", ['v'], "uidOld", 0,
        [⟨"NetworkAttachment", "a1", "uidOld", some true⟩], "s1"⟩) ∧
    (⟨"ex", ['v'], "uidOld", 0,
      [⟨"NetworkAttachment", "a1", "uidOld", some true⟩], "s1"⟩ : IPLock) ∈
      (analyzeAndRelease "ex" "a1"
        (some ⟨"ex", "a1", "uidA", "1", 0, "s1", none, 0, ""⟩) none
        [⟨"ex", ['v'], "uidOld", 0,
          [⟨"NetworkAttachment", "a1", "uidOld", some true⟩], "s1"⟩]
        none).locks :=
  C5_timeSlippers_not_released "ex" "a1"
    ⟨"ex", "a1", "uidA", "1", 0, "s1", none, 0, ""⟩ none
    [⟨"ex", ['v'], "uidOld", 0,
      [⟨"NetworkAttachment", "a1", "uidOld", some true⟩], "s1"⟩]
    none
    ⟨"ex", ['v'], "uidOld", 0,
      [⟨"NetworkAttachment", "a1", "uidOld", some true⟩], "s1"⟩
    (List.pairwise_singleton _ _) (by simp) (by decide) (by decide)

theorem analyzeRest_ok (ns name : String) (att : Option NetworkAttachment)
    (subnetRV : String) (dV dB dL : Nat) (locks : List IPLock)
    (nadat : Option NetworkAttachmentData) :
    (analyzeRest ns name att subnetRV dV dB dL locks nadat).ok = true := rfl

theorem analyzeRest_subnetRV (ns name : String) (att : Option NetworkAttachment)
    (subnetRV : String) (dV dB dL : Nat) (locks : List IPLock)
    (nadat : Option NetworkAttachmentData) :
    (analyzeRest ns name att subnetRV dV dB dL locks nadat).subnetRV
      = subnetRV := rfl

theorem analyzeRest_desiredVNI (ns name : String)
    (att : Option NetworkAttachment) (subnetRV : String) (dV dB dL : Nat)
    (locks : List IPLock) (nadat : Option NetworkAttachmentData) :
    (analyzeRest ns name att subnetRV dV dB dL locks nadat).desiredVNI
      = dV := rfl

theorem analyzeRest_desiredBaseU (ns name : String)
    (att : Option NetworkAttachment) (subnetRV : String) (dV dB dL : Nat)
    (locks : List IPLock) (nadat : Option NetworkAttachmentData) :
    (analyzeRest ns name att subnetRV dV dB dL locks nadat).desiredBaseU
      = dB := rfl

theorem analyzeRest_desiredLastU (ns name : String)
    (att : Option NetworkAttachment) (subnetRV : String) (dV dB dL : Nat)
    (locks : List IPLock) (nadat : Option NetworkAttachmentData) :
    (analyzeRest ns name att subnetRV dV dB dL locks nadat).desiredLastU
      = dL := rfl

theorem analyzeAndRelease_some_cidr {ns name : String} {a : NetworkAttachment}
    {sn : Subnet} {b ones : Nat} {locks : List IPLock}
    {nadat : Option NetworkAttachmentData} (hc : sn.cidr = some (b, ones)) :
    analyzeAndRelease ns name (some a) (some sn) locks nadat =
      analyzeRest ns name (some a) sn.resourceVersion sn.VNI b
        (b + (2 ^ (32 - ones) - 1)) locks nadat := by
  simp [analyzeAndRelease, hc, IPNetToBoundsU]

theorem processNetworkAttachment_some_ok {ns name : String} {w : World}
    {a : NetworkAttachment} (hatt : w.att = some a)
    (hok : (analyzeAndRelease ns name (some a) w.subnet w.locks
      (match w.nadat with
       | some nd => some nd
       | none => some zeroNAData)).ok = true) :
    processNetworkAttachment ns name w =
      reconcileLive ns name w a
        (analyzeAndRelease ns name (some a) w.subnet w.locks
          (match w.nadat with
           | some nd => some nd
           | none => some zeroNAData)) := by
  simp only [processNetworkAttachment, hatt]
  rw [if_neg (by simp [hok])]

theorem Best_mem (l : ParsedLock) (ls : List ParsedLock) :
    ParsedLockList.Best (l :: ls) ∈ l :: ls := by
  rw [ParsedLockList.Best]
  have hgen : ∀ (rest : List ParsedLock) (start : ParsedLock)
      (acc : List ParsedLock), start ∈ acc →
      rest.foldl (fun ans elt => if elt.IsBetterThan ans then elt else ans) start
        ∈ acc ++ rest := by
    intro rest
    induction rest with
    | nil => intro start acc hs; simpa using hs
    | cons e es ih =>
      intro start acc hs
      simp only [List.foldl_cons]
      by_cases he : e.IsBetterThan start
      · rw [if_pos he]
        have := ih e (acc ++ [e]) (by simp)
        simpa using this
      · rw [if_neg he]
        have := ih start (acc ++ [e]) (by simp [hs])
        simpa using this
  have := hgen ls l [l] (by simp)
  simpa using this

theorem usable_pairwise_of_uids {st : ConsiderState} (hu : UidsOK st) :
    st.usableLocks.Pairwise (fun p q => p.UID ≠ q.UID) := by
  have hsub : st.usableLocks.Sublist (binsAll st) := by
    unfold binsAll
    exact List.sublist_append_right _ _
  exact List.Pairwise.sublist hsub hu

theorem owned_singleton_after_release {ns name : String}
    {a : NetworkAttachment} {dV dB dL : Nat} {locks : List IPLock}
    (hpw : locks.Pairwise (fun l1 l2 => l1.uid ≠ l2.uid))
    (houid : ∀ l ∈ locks,
      (GetOwner l.owners "NetworkAttachment").2 = a.uid →
      name ∈ OwningAttachments l.owners)
    (hparseOwned : ∀ l ∈ locks,
      (GetOwner l.owners "NetworkAttachment").2 = a.uid →
      ∃ pr, NewParsedLock l = some pr)
    (hdv : dV < 2 ^ 21)
    (hu32 : ∀ u, a.statusIPv4 = some u → u < 2 ^ 32)
    (kept : ParsedLock)
    (hkept : kept ∈ (considerStage ns name (some a) dV dB dL locks).usableLocks)
    (hchoice : (releaseChoice (some a)
        (considerStage ns name (some a) dV dB dL locks)).2 =
      ((considerStage ns name (some a) dV dB dL
        locks).usableLocks.RemFunc kept).1)
    (lockKept : IPLock) (hkobj : kept.Obj = some lockKept) :
    ((((considerStage ns name (some a) dV dB dL locks).undesiredLocks.AddListFunc
        (releaseChoice (some a)
          (considerStage ns name (some a) dV dB dL locks)).2).1).foldl
        deleteIPLockObject locks).filter
      (fun l => decide ((GetOwner l.owners "NetworkAttachment").2 = a.uid))
      = [lockKept] := by
  have hcore : ConsOK a locks dV dB dL
      (considerStage ns name (some a) dV dB dL locks) := considerStage_core
  have huids : UidsOK (considerStage ns name (some a) dV dB dL locks) :=
    considerStage_uids hpw hdv hu32
  have hkeptBins : kept ∈ binsAll (considerStage ns name (some a) dV dB dL locks) := by
    simp only [binsAll, List.append_assoc, List.mem_append]
    exact Or.inr (Or.inr hkept)
  obtain ⟨lk0, hO0, hmem0, hparse0⟩ := hcore.prov kept hkeptBins
  have hlk0 : lockKept = lk0 := by
    rw [hkobj] at hO0
    exact Option.some.inj hO0
  subst hlk0
  have hkeptOwner : (GetOwner lockKept.owners "NetworkAttachment").2 = a.uid :=
    hcore.owned kept (List.mem_append.mpr (Or.inr hkept)) lockKept hkobj
  have hkeptUID : kept.UID = lockKept.uid := (NewParsedLock_spec hparse0).2.2.2.1
  have hRspec : ∀ p ∈ ((considerStage ns name (some a) dV dB dL
        locks).undesiredLocks.AddListFunc
      (releaseChoice (some a) (considerStage ns name (some a) dV dB dL
        locks)).2).1,
      ∃ lp, p.Obj = some lp ∧ lp ∈ locks ∧ NewParsedLock lp = some p ∧
        (GetOwner lp.owners "NetworkAttachment").2 = a.uid ∧
        (p ∈ (considerStage ns name (some a) dV dB dL locks).undesiredLocks ∨
         p ∈ (releaseChoice (some a)
           (considerStage ns name (some a) dV dB dL locks)).2) := by
    intro p hp
    have hbin2 : p ∈ (considerStage ns name (some a) dV dB dL
        locks).undesiredLocks ∨ p ∈ (releaseChoice (some a)
        (considerStage ns name (some a) dV dB dL locks)).2 := AddListFunc_sub hp
    have hbin : p ∈ (considerStage ns name (some a) dV dB dL
        locks).undesiredLocks ++ (considerStage ns name (some a) dV dB dL
        locks).usableLocks := by
      rcases hbin2 with h | h
      · exact List.mem_append.mpr (Or.inl h)
      · exact List.mem_append.mpr (Or.inr (releaseChoice_sub h))
    have hbinsAll : p ∈ binsAll (considerStage ns name (some a) dV dB dL
        locks) := by
      simp only [binsAll, List.append_assoc, List.mem_append]
      rcases List.mem_append.mp hbin with h | h
      · exact Or.inr (Or.inl h)
      · exact Or.inr (Or.inr h)
    obtain ⟨lp, hO, hlp, hparse⟩ := hcore.prov p hbinsAll
    exact ⟨lp, hO, hlp, hparse, hcore.owned p hbin lp hO, hbin2⟩
  have hsurvive : ∀ p ∈ ((considerStage ns name (some a) dV dB dL
        locks).undesiredLocks.AddListFunc
      (releaseChoice (some a) (considerStage ns name (some a) dV dB dL
        locks)).2).1,
      ¬ (lockKept.ns = p.ns ∧ lockKept.name = p.name ∧
        lockKept.uid = p.UID) := by
    intro p hp hmatch
    obtain ⟨lp, hO, hlp, hparse, _, hbin2⟩ := hRspec p hp
    have hpUID : p.UID = lp.uid := (NewParsedLock_spec hparse).2.2.2.1
    have hlpk : lp = lockKept := by
      by_cases hsame : lp = lockKept
      · exact hsame
      · exact absurd (hmatch.2.2.trans hpUID).symm
          (pairwise_uid_locks_ne hpw hlp hmem0 hsame)
    subst hlpk
    have hpkept : p = kept := by
      rw [hparse0] at hparse
      exact (Option.some.inj hparse).symm
    subst hpkept
    rcases hbin2 with hund | hrel
    · have h1 := hcore.undes p hund
      have h2 := hcore.usab p hkept
      rcases h1 with h | h | h
      · exact h h2.1
      · omega
      · omega
    · rw [hchoice] at hrel
      exact RemFunc_not_mem_kept _ _ (usable_pairwise_of_uids huids) hkept hrel
  have hkeptFinal : lockKept ∈ (((considerStage ns name (some a) dV dB dL
      locks).undesiredLocks.AddListFunc
        (releaseChoice (some a) (considerStage ns name (some a) dV dB dL
          locks)).2).1).foldl deleteIPLockObject locks :=
    mem_foldl_delete.mpr ⟨hmem0, hsurvive⟩
  have hall : ∀ y ∈ ((((considerStage ns name (some a) dV dB dL
        locks).undesiredLocks.AddListFunc
      (releaseChoice (some a) (considerStage ns name (some a) dV dB dL
        locks)).2).1).foldl deleteIPLockObject locks).filter
      (fun l => decide ((GetOwner l.owners "NetworkAttachment").2 = a.uid)),
      y = lockKept := by
    intro y hy
    obtain ⟨hyfin, hyp⟩ := List.mem_filter.mp hy
    have howner : (GetOwner y.owners "NetworkAttachment").2 = a.uid :=
      of_decide_eq_true hyp
    obtain ⟨hymem, hnodel⟩ := mem_foldl_delete.mp hyfin
    have hidx : name ∈ OwningAttachments y.owners := houid y hymem howner
    have hyIdx : y ∈ ownedIndex locks name :=
      List.mem_filter.mpr ⟨hymem, by simp [hidx]⟩
    obtain ⟨pr, hpr⟩ := hparseOwned y hymem howner
    have hbins := @considerStage_complete ns name a dV dB dL locks y hyIdx pr hpr
    obtain ⟨hprO, hprNs, hprName, hprUID, _, _⟩ := NewParsedLock_spec hpr
    simp only [binsAll, List.append_assoc, List.mem_append] at hbins
    rcases hbins with hslipb | hundb | husb
    · exact absurd howner (hcore.slip pr hslipb y hprO)
    · have hprR : pr ∈ ((considerStage ns name (some a) dV dB dL
          locks).undesiredLocks.AddListFunc
          (releaseChoice (some a) (considerStage ns name (some a) dV dB dL
            locks)).2).1 := AddListFunc_sup_left hundb
      exact absurd ⟨hprNs.symm, hprName.symm, hprUID.symm⟩ (hnodel pr hprR)
    · by_cases hpeq : pr.Equal kept
      · have hyuid : y.uid = lockKept.uid := by
          rw [← hprUID, hpeq.2.1, hkeptUID]
        by_cases hsame : y = lockKept
        · exact hsame
        · exact absurd hyuid (pairwise_uid_locks_ne hpw hymem hmem0 hsame)
      · have hprRem : pr ∈ ((considerStage ns name (some a) dV dB dL
            locks).usableLocks.RemFunc kept).1 :=
          RemFunc_mem_of_not_equal _ kept pr husb hpeq
        rw [← hchoice] at hprRem
        obtain ⟨r, hrR, hre⟩ := AddListFunc_covers hprRem
        obtain ⟨lr, hrO, hlr, hrparse, _, _⟩ := hRspec r hrR
        have hrUID : r.UID = lr.uid := (NewParsedLock_spec hrparse).2.2.2.1
        have hlry : y = lr := by
          by_cases hsame : lr = y
          · exact hsame.symm
          · have : lr.uid = y.uid := by
              rw [← hrUID, hre.2.1, ← hprUID]
            exact absurd this (pairwise_uid_locks_ne hpw hlr hymem hsame)
        subst hlry
        have hrNs : r.ns = y.ns := (NewParsedLock_spec hrparse).2.1
        have hrName : r.name = y.name := (NewParsedLock_spec hrparse).2.2.1
        exact absurd ⟨hrNs.symm, hrName.symm, hrUID.symm⟩ (hnodel r hrR)
  have hnodupLocks : locks.Nodup :=
    hpw.imp (fun h he => h (congrArg IPLock.uid he))
  have hnodupFinal : ((((considerStage ns name (some a) dV dB dL
      locks).undesiredLocks.AddListFunc
        (releaseChoice (some a) (considerStage ns name (some a) dV dB dL
          locks)).2).1).foldl deleteIPLockObject locks).Nodup := by
    rw [foldl_delete_eq_filter]
    exact List.Nodup.filter _ hnodupLocks
  refine all_eq_nodup_singleton (List.Nodup.filter _ hnodupFinal) ?_ hall
  exact List.mem_filter.mpr ⟨hkeptFinal, by simp [hkeptOwner]⟩

theorem owned_empty_after_release {ns name : String}
    {a : NetworkAttachment} {dV dB dL : Nat} {locks : List IPLock}
    (houid : ∀ l ∈ locks,
      (GetOwner l.owners "NetworkAttachment").2 = a.uid →
      name ∈ OwningAttachments l.owners)
    (hparseOwned : ∀ l ∈ locks,
      (GetOwner l.owners "NetworkAttachment").2 = a.uid →
      ∃ pr, NewParsedLock l = some pr)
    (husable : (considerStage ns name (some a) dV dB dL locks).usableLocks = []) :
    ((((considerStage ns name (some a) dV dB dL locks).undesiredLocks.AddListFunc
        (releaseChoice (some a)
          (considerStage ns name (some a) dV dB dL locks)).2).1).foldl
        deleteIPLockObject locks).filter
      (fun l => decide ((GetOwner l.owners "NetworkAttachment").2 = a.uid))
      = [] := by
  have hcore : ConsOK a locks dV dB dL
      (considerStage ns name (some a) dV dB dL locks) := considerStage_core
  rw [List.filter_eq_nil_iff]
  intro y hyfin hyp
  have howner : (GetOwner y.owners "NetworkAttachment").2 = a.uid :=
    of_decide_eq_true hyp
  obtain ⟨hymem, hnodel⟩ := mem_foldl_delete.mp hyfin
  have hidx : name ∈ OwningAttachments y.owners := houid y hymem howner
  have hyIdx : y ∈ ownedIndex locks name :=
    List.mem_filter.mpr ⟨hymem, by simp [hidx]⟩
  obtain ⟨pr, hpr⟩ := hparseOwned y hymem howner
  have hbins := @considerStage_complete ns name a dV dB dL locks y hyIdx pr hpr
  obtain ⟨hprO, hprNs, hprName, hprUID, _, _⟩ := NewParsedLock_spec hpr
  simp only [binsAll, List.append_assoc, List.mem_append] at hbins
  rcases hbins with hslipb | hundb | husb
  · exact absurd howner (hcore.slip pr hslipb y hprO)
  · have hprR : pr ∈ ((considerStage ns name (some a) dV dB dL
        locks).undesiredLocks.AddListFunc
        (releaseChoice (some a) (considerStage ns name (some a) dV dB dL
          locks)).2).1 := AddListFunc_sup_left hundb
    exact absurd ⟨hprNs.symm, hprName.symm, hprUID.symm⟩ (hnodel pr hprR)
  · rw [husable] at husb
    exact absurd husb (List.not_mem_nil pr)

/-- C1 counterexample: a live attachment whose subnet is missing makes
analyzeAndRelease return not ok, and processNetworkAttachment then
returns a nil error with the attachment alive, its status address set,
and no lock at all owned by its UID, so the reconciliation is successful
yet no owned lock remains. -/
theorem C1_counterexample :
    (processNetworkAttachment "ex" "a1"
      ⟨some ⟨"ex", "a1", "uidA", "1", 0, "s1", some 5, 7, "lockU"⟩,
       none, [], none, [], "u1", "rv2", 0⟩).2 = false ∧
    (processNetworkAttachment "ex" "a1"
      ⟨some ⟨"ex", "a1", "uidA", "1", 0, "s1", some 5, 7, "lockU"⟩,
       none, [], none, [], "u1", "rv2", 0⟩).1.att =
      some ⟨"ex", "a1", "uidA", "1", 0, "s1", some 5, 7, "lockU"⟩ ∧
    ((processNetworkAttachment "ex" "a1"
      ⟨some ⟨"ex", "a1", "uidA", "1", 0, "s1", some 5, 7, "lockU"⟩,
       none, [], none, [], "u1", "rv2", 0⟩).1.locks.filter
      (fun l => decide ((GetOwner l.owners "NetworkAttachment").2 = "uidA")))
      = [] :=
  ⟨rfl, rfl, rfl⟩

theorem releaseChoice_lis_eq {a : NetworkAttachment} {st2 : ConsiderState}
    (h : st2.lockInStatus.Obj ≠ none) :
    releaseChoice (some a) st2 =
      (zeroParsedLock, (st2.usableLocks.RemFunc st2.lockInStatus).1) := by
  unfold releaseChoice
  rw [if_pos h]

theorem releaseChoice_best_eq {a : NetworkAttachment} {st2 : ConsiderState}
    (h1 : ¬ st2.lockInStatus.Obj ≠ none) (h2 : st2.usableLocks.length > 0) :
    releaseChoice (some a) st2 =
      (ParsedLockList.Best st2.usableLocks,
       (st2.usableLocks.RemFunc (ParsedLockList.Best st2.usableLocks)).1) := by
  unfold releaseChoice
  rw [if_neg h1, if_pos h2]

theorem releaseChoice_empty_eq {a : NetworkAttachment} {st2 : ConsiderState}
    (h1 : ¬ st2.lockInStatus.Obj ≠ none) (h2 : ¬ st2.usableLocks.length > 0) :
    releaseChoice (some a) st2 = (zeroParsedLock, []) := by
  unfold releaseChoice
  rw [if_neg h1, if_neg h2]

theorem reconcileLive_lis {ns name : String} {w : World}
    {a : NetworkAttachment} {ar : AnalyzeResult}
    (h : ar.lockInStatus.Obj ≠ none) :
    reconcileLive ns name w a ar =
      ({ w with locks := ar.locks, nadat := ar.nadat }, false) := by
  unfold reconcileLive
  rw [if_pos h]

theorem reconcileLive_anticipated {ns name : String} {w : World}
    {a : NetworkAttachment} {ar : AnalyzeResult}
    (h1 : ¬ ar.lockInStatus.Obj ≠ none)
    (h2 : ar.lockForStatus.Obj ≠ none)
    (h3 : (ar.nadat.getD zeroNAData).anticipatedIPv4 =
      some ar.lockForStatus.addrU) :
    reconcileLive ns name w a ar =
      ({ w with locks := ar.locks, nadat := ar.nadat }, false) := by
  unfold reconcileLive
  rw [if_neg h1]
  dsimp only
  rw [if_pos h2, if_pos h3]

theorem reconcileLive_write {ns name : String} {w : World}
    {a : NetworkAttachment} {ar : AnalyzeResult}
    (h1 : ¬ ar.lockInStatus.Obj ≠ none)
    (h2 : ar.lockForStatus.Obj ≠ none)
    (h3 : ¬ (ar.nadat.getD zeroNAData).anticipatedIPv4 =
      some ar.lockForStatus.addrU) :
    reconcileLive ns name w a ar =
      ({ w with
          att := some (setIPInStatus a ar.subnetRV ar.lockForStatus
            ar.lockForStatus.addrU w.nextRV).1,
          locks := ar.locks,
          nadat := some (setIPInStatus a ar.subnetRV ar.lockForStatus
            ar.lockForStatus.addrU w.nextRV).2 }, false) := by
  unfold reconcileLive
  rw [if_neg h1]
  dsimp only
  rw [if_pos h2, if_neg h3]

theorem reconcileLive_pick {ns name : String} {w : World}
    {a : NetworkAttachment} {ar : AnalyzeResult}
    (h1 : ¬ ar.lockInStatus.Obj ≠ none)
    (h2 : ¬ ar.lockForStatus.Obj ≠ none)
    (h3 : ¬ (ar.nadat.getD zeroNAData).anticipatedIPv4 ≠ none) :
    reconcileLive ns name w a ar =
      (match pickAndLockAddress ns name a a.specSubnet ar.desiredVNI
          ar.desiredBaseU ar.desiredLastU ar.locks w.addrCache w.nextUID
          w.now with
       | (PickResult.got lfs ipU, locks2, cache2) =>
         ({ w with
             att := some (setIPInStatus a ar.subnetRV lfs ipU w.nextRV).1,
             locks := locks2,
             addrCache := cache2,
             nadat := some (setIPInStatus a ar.subnetRV lfs ipU
               w.nextRV).2 }, false)
       | (PickResult.errNoAddress, locks2, cache2) =>
         ({ w with
             locks := locks2,
             addrCache := cache2,
             nadat := ar.nadat }, true)
       | (PickResult.errCollision, locks2, cache2) =>
         ({ w with
             locks := locks2,
             addrCache := cache2,
             nadat := ar.nadat }, true)) := by
  unfold reconcileLive
  rw [if_neg h1]
  dsimp only
  rw [if_neg h2, if_neg h3]

theorem PickAddress_bounds {cache : AddrCache} {vni lo hi : Nat}
    {c2 : AddrCache} {x : Nat}
    (h : PickAddress cache vni lo hi = (c2, x, true)) : lo ≤ x ∧ x ≤ hi := by
  unfold PickAddress at h
  have h2 : (usetAddOneInRange
      (match cacheGet cache vni with | some s => s | none => ∅) lo hi).2
      = (x, true) := congrArg Prod.snd h
  exact usetAddOneInRange_mem _ lo hi x h2

theorem pickBounds_sub {b l : Nat} :
    b ≤ (pickBounds b l).1 ∧ (pickBounds b l).2 ≤ l := by
  unfold pickBounds
  by_cases h : l - b ≥ 4
  · rw [if_pos h]
    constructor <;> omega
  · rw [if_neg h]
    exact ⟨Nat.le_refl b, Nat.le_refl l⟩

theorem pickAndLockAddress_red (ns name : String) (a : NetworkAttachment)
    (subnetName : String) (vni dB dL : Nat) (locks : List IPLock)
    (cache : AddrCache) (nextUID : String) (now : Int) :
    pickAndLockAddress ns name a subnetName vni dB dL locks cache nextUID now =
      (if (PickAddress cache vni (pickBounds dB dL).1
          (pickBounds dB dL).2).2.2 = false
       then (PickResult.errNoAddress, locks,
         (PickAddress cache vni (pickBounds dB dL).1 (pickBounds dB dL).2).1)
       else
         match storeGetLock locks ns (makeIPLockName2 vni (Uint32ToIPv4
             (PickAddress cache vni (pickBounds dB dL).1
               (pickBounds dB dL).2).2.1)) with
         | none =>
           (PickResult.got
             ⟨ns, makeIPLockName2 vni (Uint32ToIPv4
                (PickAddress cache vni (pickBounds dB dL).1
                  (pickBounds dB dL).2).2.1), vni,
              (PickAddress cache vni (pickBounds dB dL).1
                (pickBounds dB dL).2).2.1, nextUID, now,
              some ⟨ns, makeIPLockName2 vni (Uint32ToIPv4
                  (PickAddress cache vni (pickBounds dB dL).1
                    (pickBounds dB dL).2).2.1), nextUID, now,
                [⟨"NetworkAttachment", name, a.uid, some true⟩], subnetName⟩⟩
             (PickAddress cache vni (pickBounds dB dL).1
               (pickBounds dB dL).2).2.1,
            locks ++ [⟨ns, makeIPLockName2 vni (Uint32ToIPv4
                (PickAddress cache vni (pickBounds dB dL).1
                  (pickBounds dB dL).2).2.1), nextUID, now,
              [⟨"NetworkAttachment", name, a.uid, some true⟩], subnetName⟩],
            (PickAddress cache vni (pickBounds dB dL).1
              (pickBounds dB dL).2).1)
         | some existing =>
           if (GetOwner existing.owners "NetworkAttachment").1 = name ∧
               (GetOwner existing.owners "NetworkAttachment").2 = a.uid then
             (PickResult.got
               ⟨ns, makeIPLockName2 vni (Uint32ToIPv4
                  (PickAddress cache vni (pickBounds dB dL).1
                    (pickBounds dB dL).2).2.1), vni,
                (PickAddress cache vni (pickBounds dB dL).1
                  (pickBounds dB dL).2).2.1, existing.uid,
                existing.creationTime, some existing⟩
               (PickAddress cache vni (pickBounds dB dL).1
                 (pickBounds dB dL).2).2.1,
              locks,
              (PickAddress cache vni (pickBounds dB dL).1
                (pickBounds dB dL).2).1)
           else
             (PickResult.errCollision, locks,
              (PickAddress cache vni (pickBounds dB dL).1
                (pickBounds dB dL).2).1)) := rfl

theorem analyzeRest_nadat (ns name : String) (att : Option NetworkAttachment)
    (subnetRV : String) (dV dB dL : Nat) (locks : List IPLock)
    (nd : NetworkAttachmentData) :
    (analyzeRest ns name att subnetRV dV dB dL locks (some nd)).nadat =
      if anticipationStale att nd subnetRV then some zeroNAData
      else some nd := rfl

theorem Best_mem_of_pos {l : ParsedLockList} (h : l.length > 0) :
    ParsedLockList.Best l ∈ l := by
  cases l with
  | nil => simp at h
  | cons x xs => exact Best_mem x xs

theorem reconcile_invariant_core (ns name : String) (w : World)
    (a : NetworkAttachment) (srv : String) (dV dB dL : Nat)
    (nd0 : NetworkAttachmentData)
    (hatt : w.att = some a)
    (hpw : w.locks.Pairwise (fun l1 l2 => l1.uid ≠ l2.uid))
    (houid : ∀ l ∈ w.locks,
      (GetOwner l.owners "NetworkAttachment").2 = a.uid →
      name ∈ OwningAttachments l.owners)
    (hparseOwned : ∀ l ∈ w.locks,
      (GetOwner l.owners "NetworkAttachment").2 = a.uid →
      ∃ pr, NewParsedLock l = some pr)
    (hdv : dV < 2 ^ 21)
    (hu32 : ∀ u, a.statusIPv4 = some u → u < 2 ^ 32)
    (hlast : dL < 2 ^ 32)
    (hstatus : ∀ l ∈ w.locks, l.uid = a.statusLockUID →
      ∀ u, a.statusIPv4 = some u →
      parseIPLockName l.name = some (a.statusAddressVNI, u))
    (hanticip : anticipationStale (some a) nd0 srv = false →
      ∀ x, nd0.anticipatedIPv4 = some x →
      a.statusIPv4 = some x ∧ a.statusAddressVNI = dV ∧
      ∃ l ∈ w.locks, (GetOwner l.owners "NetworkAttachment").2 = a.uid ∧
        parseIPLockName l.name = some (dV, x) ∧ dB ≤ x ∧ x ≤ dL)
    (herr : (reconcileLive ns name w a
      (analyzeRest ns name (some a) srv dV dB dL w.locks (some nd0))).2
      = false) :
    ∃ a2 lk u,
      (reconcileLive ns name w a
        (analyzeRest ns name (some a) srv dV dB dL w.locks (some nd0))).1.att
        = some a2 ∧
      a2.uid = a.uid ∧
      a2.statusIPv4 = some u ∧
      (reconcileLive ns name w a
        (analyzeRest ns name (some a) srv dV dB dL w.locks
          (some nd0))).1.locks.filter
        (fun l => decide ((GetOwner l.owners "NetworkAttachment").2 = a2.uid))
        = [lk] ∧
      parseIPLockName lk.name = some (a2.statusAddressVNI, u) := by
  have hcore : ConsOK a w.locks dV dB dL
      (considerStage ns name (some a) dV dB dL w.locks) := considerStage_core
  have hant_src : ∀ x,
      ((analyzeRest ns name (some a) srv dV dB dL w.locks
        (some nd0)).nadat.getD zeroNAData).anticipatedIPv4 = some x →
      anticipationStale (some a) nd0 srv = false ∧
      nd0.anticipatedIPv4 = some x := by
    intro x hx
    rw [analyzeRest_nadat] at hx
    by_cases hs : anticipationStale (some a) nd0 srv = true
    · rw [if_pos hs] at hx
      simp [zeroNAData] at hx
    · have hs2 : anticipationStale (some a) nd0 srv = false := by
        revert hs
        cases anticipationStale (some a) nd0 srv <;> simp
      rw [if_neg hs] at hx
      exact ⟨hs2, hx⟩
  by_cases hlis : (considerStage ns name (some a) dV dB dL
      w.locks).lockInStatus.Obj ≠ none
  · -- the lock in status is kept
    have hlisAR : (analyzeRest ns name (some a) srv dV dB dL w.locks
        (some nd0)).lockInStatus.Obj ≠ none := hlis
    rw [reconcileLive_lis hlisAR]
    rcases hcore.lis with hz | ⟨hmem_us, hUID, hsip⟩
    · rw [hz] at hlis
      exact absurd rfl hlis
    have hkb : (considerStage ns name (some a) dV dB dL
        w.locks).lockInStatus ∈ binsAll (considerStage ns name (some a)
          dV dB dL w.locks) := by
      simp only [binsAll, List.append_assoc, List.mem_append]
      exact Or.inr (Or.inr hmem_us)
    obtain ⟨lk, hObj, hlkmem, hparse⟩ := hcore.prov _ hkb
    have hchoice : (releaseChoice (some a) (considerStage ns name (some a)
        dV dB dL w.locks)).2 =
        ((considerStage ns name (some a) dV dB dL
          w.locks).usableLocks.RemFunc
          (considerStage ns name (some a) dV dB dL w.locks).lockInStatus).1 :=
      congrArg Prod.snd (releaseChoice_lis_eq hlis)
    have hsing := owned_singleton_after_release hpw houid hparseOwned hdv
      hu32 _ hmem_us hchoice lk hObj
    refine ⟨a, lk, _, hatt, rfl, hsip, ?_, ?_⟩
    · exact hsing
    · have hlkuid : lk.uid = a.statusLockUID := by
        rw [← (NewParsedLock_spec hparse).2.2.2.1]
        exact hUID
      exact hstatus lk hlkmem hlkuid _ hsip
  · by_cases hus : (considerStage ns name (some a) dV dB dL
        w.locks).usableLocks.length > 0
    · -- a usable lock is elected
      have hrc := @releaseChoice_best_eq a (considerStage ns name (some a)
        dV dB dL w.locks) hlis hus
      have hlfs : (analyzeRest ns name (some a) srv dV dB dL w.locks
          (some nd0)).lockForStatus =
          ParsedLockList.Best (considerStage ns name (some a) dV dB dL
            w.locks).usableLocks := by
        rw [analyzeRest_lockForStatus, hrc]
      have hBestMem : ParsedLockList.Best (considerStage ns name (some a)
          dV dB dL w.locks).usableLocks ∈ (considerStage ns name (some a)
          dV dB dL w.locks).usableLocks := Best_mem_of_pos hus
      have hkbB : ParsedLockList.Best (considerStage ns name (some a)
          dV dB dL w.locks).usableLocks ∈ binsAll (considerStage ns name
          (some a) dV dB dL w.locks) := by
        simp only [binsAll, List.append_assoc, List.mem_append]
        exact Or.inr (Or.inr hBestMem)
      obtain ⟨lkB, hOB, hmemB, hparseB⟩ := hcore.prov _ hkbB
      have hlfsObj : (analyzeRest ns name (some a) srv dV dB dL w.locks
          (some nd0)).lockForStatus.Obj ≠ none := by
        rw [hlfs, hOB]
        simp
      have husabB := hcore.usab _ hBestMem
      have hchoiceB : (releaseChoice (some a) (considerStage ns name (some a)
          dV dB dL w.locks)).2 =
          ((considerStage ns name (some a) dV dB dL
            w.locks).usableLocks.RemFunc
            (ParsedLockList.Best (considerStage ns name (some a) dV dB dL
              w.locks).usableLocks)).1 :=
        congrArg Prod.snd hrc
      have hsingB := owned_singleton_after_release hpw houid hparseOwned hdv
        hu32 _ hBestMem hchoiceB lkB hOB
      have hpairB : parseIPLockName lkB.name =
          some ((ParsedLockList.Best (considerStage ns name (some a) dV dB dL
            w.locks).usableLocks).VNI,
          (ParsedLockList.Best (considerStage ns name (some a) dV dB dL
            w.locks).usableLocks).addrU) :=
        (NewParsedLock_spec hparseB).2.2.2.2.2
      by_cases hant : ((analyzeRest ns name (some a) srv dV dB dL w.locks
          (some nd0)).nadat.getD zeroNAData).anticipatedIPv4 =
          some (analyzeRest ns name (some a) srv dV dB dL w.locks
            (some nd0)).lockForStatus.addrU
      · -- anticipated address: keep the lock, write nothing
        rw [reconcileLive_anticipated hlis hlfsObj hant]
        obtain ⟨hstale, hx0⟩ := hant_src _ hant
        obtain ⟨hsipx, hvni, -⟩ := hanticip hstale _ hx0
        refine ⟨a, lkB, _, hatt, rfl, hsipx, ?_, ?_⟩
        · exact hsingB
        · rw [hlfs, hvni.trans husabB.1.symm]
          exact hpairB
      · -- elect the lock and write it to status
        rw [reconcileLive_write hlis hlfsObj hant]
        refine ⟨(setIPInStatus a (analyzeRest ns name (some a) srv dV dB dL
            w.locks (some nd0)).subnetRV
            (analyzeRest ns name (some a) srv dV dB dL w.locks
              (some nd0)).lockForStatus
            (analyzeRest ns name (some a) srv dV dB dL w.locks
              (some nd0)).lockForStatus.addrU w.nextRV).1, lkB, _,
          rfl, rfl, rfl, ?_, ?_⟩
        · exact hsingB
        · show parseIPLockName lkB.name =
            some ((analyzeRest ns name (some a) srv dV dB dL w.locks
              (some nd0)).lockForStatus.VNI,
            (analyzeRest ns name (some a) srv dV dB dL w.locks
              (some nd0)).lockForStatus.addrU)
          rw [hlfs]
          exact hpairB
    · -- no usable lock
      have husable : (considerStage ns name (some a) dV dB dL
          w.locks).usableLocks = [] :=
        List.eq_nil_of_length_eq_zero (by omega)
      have hrc := @releaseChoice_empty_eq a (considerStage ns name (some a)
        dV dB dL w.locks) hlis hus
      have hlfsz : (analyzeRest ns name (some a) srv dV dB dL w.locks
          (some nd0)).lockForStatus = zeroParsedLock := by
        rw [analyzeRest_lockForStatus, hrc]
      have hlfsObjz : ¬ (analyzeRest ns name (some a) srv dV dB dL w.locks
          (some nd0)).lockForStatus.Obj ≠ none := by
        rw [hlfsz]
        simp [zeroParsedLock]
      by_cases hant2 : ((analyzeRest ns name (some a) srv dV dB dL w.locks
          (some nd0)).nadat.getD zeroNAData).anticipatedIPv4 ≠ none
      · -- a valid anticipation without a usable lock cannot happen
        exfalso
        rcases hx : ((analyzeRest ns name (some a) srv dV dB dL w.locks
            (some nd0)).nadat.getD zeroNAData).anticipatedIPv4 with _ | x
        · exact hant2 hx
        obtain ⟨hstale, hx0⟩ := hant_src x hx
        obtain ⟨-, -, l, hlmem, hlown, hlparse, hxlo, hxhi⟩ :=
          hanticip hstale x hx0
        have hprl : NewParsedLock l =
            some ⟨l.ns, l.name, dV, x, l.uid, l.creationTime, some l⟩ := by
          unfold NewParsedLock
          rw [hlparse]
        have hlidx : l ∈ ownedIndex w.locks name :=
          List.mem_filter.mpr ⟨hlmem, by simp [houid l hlmem hlown]⟩
        have hbins := @considerStage_complete ns name a dV dB dL w.locks
          l hlidx _ hprl
        simp only [binsAll, List.append_assoc, List.mem_append] at hbins
        rcases hbins with hb | hb | hb
        · exact hcore.slip _ hb l rfl hlown
        · rcases hcore.undes _ hb with h | h | h
          · exact h rfl
          · dsimp only at h
            omega
          · dsimp only at h
            omega
        · rw [husable] at hb
          exact absurd hb (List.not_mem_nil _)
      · -- pick and lock a fresh address
        rw [reconcileLive_pick hlis hlfsObjz hant2] at herr ⊢
        simp only [analyzeRest_desiredVNI, analyzeRest_desiredBaseU,
          analyzeRest_desiredLastU, analyzeRest_locks,
          analyzeRest_subnetRV] at herr ⊢
        by_cases hPfail : (PickAddress w.addrCache dV (pickBounds dB dL).1
            (pickBounds dB dL).2).2.2 = false
        · have hpick : pickAndLockAddress ns name a a.specSubnet dV dB dL
              ((((considerStage ns name (some a) dV dB dL
                w.locks).undesiredLocks.AddListFunc
                (releaseChoice (some a) (considerStage ns name (some a)
                  dV dB dL w.locks)).2).1).foldl deleteIPLockObject w.locks)
              w.addrCache w.nextUID w.now =
              (PickResult.errNoAddress,
               (((considerStage ns name (some a) dV dB dL
                 w.locks).undesiredLocks.AddListFunc
                 (releaseChoice (some a) (considerStage ns name (some a)
                   dV dB dL w.locks)).2).1).foldl deleteIPLockObject w.locks,
               (PickAddress w.addrCache dV (pickBounds dB dL).1
                 (pickBounds dB dL).2).1) := by
            rw [pickAndLockAddress_red, if_pos hPfail]
          rw [hpick] at herr
          exact Bool.noConfusion herr
        · have hP2 : (PickAddress w.addrCache dV (pickBounds dB dL).1
              (pickBounds dB dL).2).2.2 = true := by
            revert hPfail
            cases (PickAddress w.addrCache dV (pickBounds dB dL).1
              (pickBounds dB dL).2).2.2 <;> simp
          have hPeq : PickAddress w.addrCache dV (pickBounds dB dL).1
              (pickBounds dB dL).2 =
              ((PickAddress w.addrCache dV (pickBounds dB dL).1
                (pickBounds dB dL).2).1,
               (PickAddress w.addrCache dV (pickBounds dB dL).1
                 (pickBounds dB dL).2).2.1, true) := by
            rw [← hP2]
          obtain ⟨hlo, hhi⟩ := PickAddress_bounds hPeq
          have hip32 : (PickAddress w.addrCache dV (pickBounds dB dL).1
              (pickBounds dB dL).2).2.1 < 2 ^ 32 :=
            lt_of_le_of_lt (le_trans hhi (@pickBounds_sub dB dL).2) hlast
          have hparseNew := parse_make_name dV
            (PickAddress w.addrCache dV (pickBounds dB dL).1
              (pickBounds dB dL).2).2.1 hdv hip32
          cases hget : storeGetLock
              ((((considerStage ns name (some a) dV dB dL
                w.locks).undesiredLocks.AddListFunc
                (releaseChoice (some a) (considerStage ns name (some a)
                  dV dB dL w.locks)).2).1).foldl deleteIPLockObject w.locks)
              ns (makeIPLockName2 dV (Uint32ToIPv4
                (PickAddress w.addrCache dV (pickBounds dB dL).1
                  (pickBounds dB dL).2).2.1)) with
          | none =>
            have hpick : pickAndLockAddress ns name a a.specSubnet dV dB dL
                ((((considerStage ns name (some a) dV dB dL
                  w.locks).undesiredLocks.AddListFunc
                  (releaseChoice (some a) (considerStage ns name (some a)
                    dV dB dL w.locks)).2).1).foldl deleteIPLockObject w.locks)
                w.addrCache w.nextUID w.now =
                (PickResult.got
                  ⟨ns, makeIPLockName2 dV (Uint32ToIPv4
                      (PickAddress w.addrCache dV (pickBounds dB dL).1
                        (pickBounds dB dL).2).2.1), dV,
                   (PickAddress w.addrCache dV (pickBounds dB dL).1
                     (pickBounds dB dL).2).2.1, w.nextUID, w.now,
                   some ⟨ns, makeIPLockName2 dV (Uint32ToIPv4
                       (PickAddress w.addrCache dV (pickBounds dB dL).1
                         (pickBounds dB dL).2).2.1), w.nextUID, w.now,
                     [⟨"NetworkAttachment", name, a.uid, some true⟩],
                     a.specSubnet⟩⟩
                  (PickAddress w.addrCache dV (pickBounds dB dL).1
                    (pickBounds dB dL).2).2.1,
                 (((considerStage ns name (some a) dV dB dL
                   w.locks).undesiredLocks.AddListFunc
                   (releaseChoice (some a) (considerStage ns name (some a)
                     dV dB dL w.locks)).2).1).foldl deleteIPLockObject
                   w.locks ++
                   [⟨ns, makeIPLockName2 dV (Uint32ToIPv4
                       (PickAddress w.addrCache dV (pickBounds dB dL).1
                         (pickBounds dB dL).2).2.1), w.nextUID, w.now,
                     [⟨"NetworkAttachment", name, a.uid, some true⟩],
                     a.specSubnet⟩],
                 (PickAddress w.addrCache dV (pickBounds dB dL).1
                   (pickBounds dB dL).2).1) := by
              rw [pickAndLockAddress_red, if_neg hPfail, hget]
            rw [hpick] at herr ⊢
            have hfilter : (((((considerStage ns name (some a) dV dB dL
                  w.locks).undesiredLocks.AddListFunc
                  (releaseChoice (some a) (considerStage ns name (some a)
                    dV dB dL w.locks)).2).1).foldl deleteIPLockObject
                  w.locks) ++
                [(⟨ns, makeIPLockName2 dV (Uint32ToIPv4
                    (PickAddress w.addrCache dV (pickBounds dB dL).1
                      (pickBounds dB dL).2).2.1), w.nextUID, w.now,
                  [⟨"NetworkAttachment", name, a.uid, some true⟩],
                  a.specSubnet⟩ : IPLock)]).filter
                (fun l => decide ((GetOwner l.owners
                  "NetworkAttachment").2 = a.uid)) =
                [(⟨ns, makeIPLockName2 dV (Uint32ToIPv4
                    (PickAddress w.addrCache dV (pickBounds dB dL).1
                      (pickBounds dB dL).2).2.1), w.nextUID, w.now,
                  [⟨"NetworkAttachment", name, a.uid, some true⟩],
                  a.specSubnet⟩ : IPLock)] := by
              rw [List.filter_append,
                owned_empty_after_release houid hparseOwned husable]
              simp [GetOwner]
            exact ⟨_, _, _, rfl, rfl, rfl, hfilter, hparseNew⟩
          | some existing =>
            have hex := storeGetLock_spec hget
            by_cases hmatch : (GetOwner existing.owners
                "NetworkAttachment").1 = name ∧
                (GetOwner existing.owners "NetworkAttachment").2 = a.uid
            · -- the colliding lock would have been usable
              exfalso
              have hempty := owned_empty_after_release houid hparseOwned
                husable
              have hmemf : existing ∈ (((((considerStage ns name (some a)
                  dV dB dL w.locks).undesiredLocks.AddListFunc
                  (releaseChoice (some a) (considerStage ns name (some a)
                    dV dB dL w.locks)).2).1).foldl deleteIPLockObject
                  w.locks)).filter
                  (fun l => decide ((GetOwner l.owners
                    "NetworkAttachment").2 = a.uid)) :=
                List.mem_filter.mpr ⟨hex.1, by simp [hmatch.2]⟩
              rw [hempty] at hmemf
              exact absurd hmemf (List.not_mem_nil existing)
            · have hpick : pickAndLockAddress ns name a a.specSubnet dV dB dL
                  ((((considerStage ns name (some a) dV dB dL
                    w.locks).undesiredLocks.AddListFunc
                    (releaseChoice (some a) (considerStage ns name (some a)
                      dV dB dL w.locks)).2).1).foldl deleteIPLockObject
                    w.locks)
                  w.addrCache w.nextUID w.now =
                  (PickResult.errCollision,
                   (((considerStage ns name (some a) dV dB dL
                     w.locks).undesiredLocks.AddListFunc
                     (releaseChoice (some a) (considerStage ns name (some a)
                       dV dB dL w.locks)).2).1).foldl deleteIPLockObject
                     w.locks,
                   (PickAddress w.addrCache dV (pickBounds dB dL).1
                     (pickBounds dB dL).2).1) := by
                rw [pickAndLockAddress_red, if_neg hPfail, hget]
                exact if_neg hmatch
              rw [hpick] at herr
              exact Bool.noConfusion herr

/-- C1 amended: a successful reconciliation (nil error) of a live
attachment leaves exactly one owned lock with the status (VNI, IP) pair
only under the preconditions the controller itself maintains: the
subnet is present with a well-formed CIDR, lock UIDs are distinct,
owned locks are indexed and parseable, the VNI fits 21 bits and the
block fits 32 bits, a remembered status lock UID identifies a lock
encoding exactly (status.addressVNI, status.ipv4), and a surviving
anticipation record reflects the status fields and is backed by a
usable owned lock.  Without them the bare claim fails (see the
counterexample): an early-return reconciliation also reports nil. -/
theorem C1_owned_lock_invariant
    (ns name : String) (w : World) (a : NetworkAttachment) (sn : Subnet)
    (b ones : Nat)
    (hatt : w.att = some a)
    (hsub : w.subnet = some sn)
    (hcidr : sn.cidr = some (b, ones))
    (hpw : w.locks.Pairwise (fun l1 l2 => l1.uid ≠ l2.uid))
    (houid : ∀ l ∈ w.locks,
      (GetOwner l.owners "NetworkAttachment").2 = a.uid →
      name ∈ OwningAttachments l.owners)
    (hparseOwned : ∀ l ∈ w.locks,
      (GetOwner l.owners "NetworkAttachment").2 = a.uid →
      ∃ pr, NewParsedLock l = some pr)
    (hdv : sn.VNI < 2 ^ 21)
    (hu32 : ∀ u, a.statusIPv4 = some u → u < 2 ^ 32)
    (hlast : b + (2 ^ (32 - ones) - 1) < 2 ^ 32)
    (hstatus : ∀ l ∈ w.locks, l.uid = a.statusLockUID →
      ∀ u, a.statusIPv4 = some u →
      parseIPLockName l.name = some (a.statusAddressVNI, u))
    (hanticip : ∀ nd, w.nadat = some nd →
      anticipationStale (some a) nd sn.resourceVersion = false →
      ∀ x, nd.anticipatedIPv4 = some x →
      a.statusIPv4 = some x ∧ a.statusAddressVNI = sn.VNI ∧
      ∃ l ∈ w.locks, (GetOwner l.owners "NetworkAttachment").2 = a.uid ∧
        parseIPLockName l.name = some (sn.VNI, x) ∧
        b ≤ x ∧ x ≤ b + (2 ^ (32 - ones) - 1))
    (herr : (processNetworkAttachment ns name w).2 = false) :
    ∃ a2 lk u,
      (processNetworkAttachment ns name w).1.att = some a2 ∧
      a2.uid = a.uid ∧
      a2.statusIPv4 = some u ∧
      (processNetworkAttachment ns name w).1.locks.filter
        (fun l => decide ((GetOwner l.owners "NetworkAttachment").2
          = a2.uid)) = [lk] ∧
      parseIPLockName lk.name = some (a2.statusAddressVNI, u) := by
  have hnadat0 : (match w.nadat with
      | some nd => some nd
      | none => some zeroNAData) = some (w.nadat.getD zeroNAData) := by
    cases w.nadat <;> rfl
  have hok : (analyzeAndRelease ns name (some a) w.subnet w.locks
      (match w.nadat with
       | some nd => some nd
       | none => some zeroNAData)).ok = true := by
    rw [hsub, analyzeAndRelease_some_cidr hcidr]
    rfl
  have hproc : processNetworkAttachment ns name w =
      reconcileLive ns name w a (analyzeRest ns name (some a)
        sn.resourceVersion sn.VNI b (b + (2 ^ (32 - ones) - 1)) w.locks
        (some (w.nadat.getD zeroNAData))) := by
    rw [processNetworkAttachment_some_ok hatt hok, hsub,
      analyzeAndRelease_some_cidr hcidr, hnadat0]
  rw [hproc] at herr ⊢
  refine reconcile_invariant_core ns name w a sn.resourceVersion sn.VNI b
    (b + (2 ^ (32 - ones) - 1)) (w.nadat.getD zeroNAData) hatt hpw houid
    hparseOwned hdv hu32 hlast hstatus ?_ herr
  intro hstale x hx
  cases hw : w.nadat with
  | none =>
    rw [hw] at hx
    simp [zeroNAData] at hx
  | some nd =>
    rw [hw] at hstale hx
    simp only [Option.getD_some] at hstale hx
    exact hanticip nd hw hstale x hx

/-- Witness for C1 at a concrete world: a live attachment with empty
status, a subnet with VNI 7 and block 0/24, and no locks; the
reconciliation picks address 2, creates one lock named 7-0-0-0-2 and
writes (7, 2) to the status. -/
theorem C1_owned_lock_invariant_witness :
    ∃ a2 lk u,
      (processNetworkAttachment "ex" "a1"
        ⟨some ⟨"ex", "a1", "uidA", "1", 0, "s1", none, 0, ""⟩,
         some ⟨"s1", "srv1", 7, some (0, 24)⟩, [], none, [], "u1", "rv2",
         0⟩).1.att = some a2 ∧
      a2.uid = "uidA" ∧
      a2.statusIPv4 = some u ∧
      ((processNetworkAttachment "ex" "a1"
        ⟨some ⟨"ex", "a1", "uidA", "1", 0, "s1", none, 0, ""⟩,
         some ⟨"s1", "srv1", 7, some (0, 24)⟩, [], none, [], "u1", "rv2",
         0⟩).1.locks.filter
        (fun l => decide ((GetOwner l.owners "NetworkAttachment").2
          = a2.uid))) = [lk] ∧
      parseIPLockName lk.name = some (a2.statusAddressVNI, u) :=
  C1_owned_lock_invariant "ex" "a1"
    ⟨some ⟨"ex", "a1", "uidA", "1", 0, "s1", none, 0, ""⟩,
     some ⟨"s1", "srv1", 7, some (0, 24)⟩, [], none, [], "u1", "rv2", 0⟩
    ⟨"ex", "a1", "uidA", "1", 0, "s1", none, 0, ""⟩
    ⟨"s1", "srv1", 7, some (0, 24)⟩ 0 24 rfl rfl rfl
    List.Pairwise.nil
    (fun l hl => absurd hl (List.not_mem_nil l))
    (fun l hl => absurd hl (List.not_mem_nil l))
    (by norm_num)
    (fun u h => Option.noConfusion h)
    (by norm_num)
    (fun l hl => absurd hl (List.not_mem_nil l))
    (fun nd h => Option.noConfusion h)
    rfl
